import Mathlib

/-! VexCL: sort test predicate and host reference loops of the benchmark.

Shallow embedding of

* `tests/sort.cpp`: the comparator `even_first` (host `operator()` and the
  device snippet registered through `VEX_FUNCTION`) and the `std::is_sorted`
  checks of the sort tests;
* `examples/benchmark.cpp`: the host reference loops of `benchmark_saxpy`,
  `benchmark_stencil`, `benchmark_spmv` and `benchmark_spmv_ccsr` and the
  matrix builders that feed them.

C++ `int` is a 32-bit two's-complement integer, modelled by `Int` together with
its bit pattern `int_bits`; `size_t` values are `Nat`.
-/

namespace VexCL

/-! ## `tests/sort.cpp`: the comparator `even_first` -/

/-- Range of a C++ `int` (32-bit signed). -/
def is_int32 (a : Int) : Prop := -(2 : Int) ^ 31 ≤ a ∧ a < (2 : Int) ^ 31

instance (a : Int) : Decidable (is_int32 a) := by
  unfold is_int32; exact inferInstance

/-- Two's-complement bit pattern of a 32-bit `int`. -/
def int_bits (a : Int) : Nat := (a % (2 : Int) ^ 32).toNat

/-- The 32-bit `int` denoted by a bit pattern `u < 2^32`. -/
def int_of_bits (u : Nat) : Int :=
  if u < 2 ^ 31 then (u : Int) else (u : Int) - (2 : Int) ^ 32

/-- Operator `&` on two 32-bit `int`s: bitwise and of the bit patterns. -/
def int_and (x y : Int) : Int := int_of_bits (Nat.land (int_bits x) (int_bits y))

/-- Conversion of an `int` to (signed, 8-bit) `char`. -/
def to_char (x : Int) : Int := (x + 128) % 256 - 128

/-- Host predicate `even_first::operator()(int a, int b)`:
```
char bit1 = 1 & a;
char bit2 = 1 & b;
if (bit1 == bit2) return a < b;
return bit1 < bit2;
``` -/
def even_first (a b : Int) : Bool :=
  let bit1 := to_char (int_and 1 a)
  let bit2 := to_char (int_and 1 b)
  if bit1 = bit2 then decide (a < b)
  else decide (bit1 < bit2)

/-- Device body registered by `VEX_FUNCTION(device, bool(int, int), ...)`,
read as a function of its positional parameters `prm1`, `prm2`:
```
char bit1 = 1 & prm1;
char bit2 = 1 & prm2;
if (bit1 == bit2) return prm1 < prm2;
return bit1 < bit2;
``` -/
def even_first_device (prm1 prm2 : Int) : Bool :=
  let bit1 := to_char (int_and 1 prm1)
  let bit2 := to_char (int_and 1 prm2)
  if bit1 = bit2 then decide (prm1 < prm2)
  else decide (bit1 < bit2)

/-! ## Sort engine (`vexcl/sort.hpp`, exercised by `tests/sort.cpp`)

The tests call `vex::sort` and `vex::sort_by_key` and check the keys read back
with `std::is_sorted`.  The sort itself lives in `vexcl/sort.hpp`, which is not
among the sources; it is modelled from the specification (§3 Partition, §4.1,
§4.6, §7): the logical vector is split into one contiguous partition per
device, every partition is sorted locally, a merge stage combines the
partitions, and the result is stored back under the same partitioning. -/

/-- Check `std::is_sorted(first, last, comp)` of the tests: no element is
`comp`-less than its predecessor. -/
def is_sorted {α : Type} (comp : α → α → Bool) : List α → Bool
  | [] => true
  | [_] => true
  | a :: b :: rest => !comp b a && is_sorted comp (b :: rest)

/-- Default comparator of `vex::sort` / `std::is_sorted`: `a < b`. -/
def less {K : Type} [LinearOrder K] (a b : K) : Bool := decide (a < b)

/-- Modelled from the spec: the error taxonomy of §7 (`vexcl` headers are not
among the sources); only the errors that the modelled calls can raise are
listed. -/
inductive Error where
  | NoDeviceError
  | SizeMismatchError
  | InvalidArgumentError
  deriving DecidableEq, Repr

/-- Modelled from the spec: `partition(N, devices)` of §4.1 (`vexcl/vector.hpp`
is not among the sources): `[0, N)` is divided into `D` contiguous,
near-equal-size ranges `[start, end)` in device order. -/
def partition (N D : Nat) : List (Nat × Nat) :=
  (List.range D).map fun p => (p * N / D, (p + 1) * N / D)

/-- Modelled from the spec: a distributed vector built from a host sequence
(§3; `vexcl/vector.hpp` is not among the sources): one buffer per partition. -/
def distribute {α : Type} (D : Nat) (xs : List α) : List (List α) :=
  (partition xs.length D).map fun r => (xs.drop r.1).take (r.2 - r.1)

/-- Modelled from the spec: `copy(vector, host_sequence)` of §6
(`vexcl/vector.hpp` is not among the sources): the partitions read back in
device order. -/
def gather {α : Type} (parts : List (List α)) : List α := parts.flatten

/-- Modelled from the spec: insertion step of the per-partition local sort of
§4.6 (`vexcl/sort.hpp` is not among the sources). -/
def insert_sorted {α : Type} (comp : α → α → Bool) (x : α) : List α → List α
  | [] => [x]
  | y :: ys => if comp x y then x :: y :: ys else y :: insert_sorted comp x ys

/-- Modelled from the spec: the per-partition local sort of §4.6
(`vexcl/sort.hpp` is not among the sources). -/
def local_sort {α : Type} (comp : α → α → Bool) : List α → List α
  | [] => []
  | x :: xs => insert_sorted comp x (local_sort comp xs)

/-- Modelled from the spec: inner loop of the two-way merge of §4.6
(`vexcl/sort.hpp` is not among the sources): the head `x` of the first run is
kept while elements of the second run go before it. -/
def merge_step {α : Type} (comp : α → α → Bool) (x : α) (xs : List α)
    (rest : List α → List α) : List α → List α
  | [] => x :: xs
  | y :: ys =>
    if comp y x then y :: merge_step comp x xs rest ys else x :: rest (y :: ys)

/-- Modelled from the spec: two-way merge of sorted runs, the building block of
the cross-partition merge stage of §4.6 (`vexcl/sort.hpp` is not among the
sources). -/
def merge {α : Type} (comp : α → α → Bool) : List α → List α → List α
  | [], ys => ys
  | x :: xs, ys => merge_step comp x xs (merge comp xs) ys

/-- Modelled from the spec: the sort of a distributed vector (§4.6;
`vexcl/sort.hpp` is not among the sources): local sort of every partition,
cross-partition merge, result stored under the unchanged partitioning. -/
def sort_parts {α : Type} (comp : α → α → Bool) (D : Nat) (xs : List α) : List (List α) :=
  let locals := (distribute D xs).map (local_sort comp)
  let merged := locals.foldl (merge comp) []
  distribute D merged

/-- Modelled from the spec: `sort(keys)` of §4.6 on a context of `D` devices,
followed by `vex::copy(keys, k)` (`vexcl/sort.hpp` is not among the sources).
An empty context fails with `NoDeviceError` (§4.1). -/
def sort {K : Type} (comp : K → K → Bool) (D : Nat) (keys : List K) : Except Error (List K) :=
  if D = 0 then .error .NoDeviceError
  else .ok (gather (sort_parts comp D keys))

/-- Modelled from the spec: `sort_by_key(keys, values, comparator)` of §4.6 on
a context of `D` devices, followed by the copy back to the host
(`vexcl/sort.hpp` is not among the sources): the values are co-permuted with
the keys; the comparator sees the keys only. -/
def sort_by_key {K V : Type} (comp : K → K → Bool) (D : Nat) (keys : List K) (vals : List V) :
    Except Error (List K × List V) :=
  if D = 0 then .error .NoDeviceError
  else if keys.length ≠ vals.length then .error .SizeMismatchError
  else
    let r := gather (sort_parts (fun p q => comp p.1 q.1) D (keys.zip vals))
    .ok (r.map Prod.fst, r.map Prod.snd)

/-- What the proofs need of a comparator: asymmetry, and transitivity of
"not less" (both hold for every strict weak order). -/
structure StrictWeak {α : Type} (comp : α → α → Bool) : Prop where
  asymm : ∀ a b, comp a b = true → comp b a = false
  ntrans : ∀ a b c, comp b a = false → comp c b = false → comp c a = false

/-- Every element is not `comp`-less than any earlier element. -/
def Ordered {α : Type} (comp : α → α → Bool) (l : List α) : Prop :=
  l.Pairwise (fun a b => comp b a = false)

/-! ## Host reference of `benchmark_stencil` (`examples/benchmark.cpp`)

The vector length `N`, the weights `S` and the center are parameters (in the
source `N = 1024 * 1024`, 21 equal weights, `center = S.size() / 2`); `long`
values are integers and `real` is an arbitrary semiring (exact arithmetic).
Reads return `Option`, `none` standing for an out-of-bounds access. -/

/-- Source index `std::min<long>(N-1, std::max<long>(0, i + k - center))`. -/
def stencil_src (N i k center : Int) : Int := min (N - 1) (max 0 (i + k - center))

/-- Read `A[j]` with a `long` index `j`; `none` outside `[0, A.size())`. -/
def read_at {R : Type} (A : List R) (j : Int) : Option R :=
  if 0 ≤ j then A[j.toNat]? else none

/-- Inner loop of the host reference of `benchmark_stencil`:
```
real sum = 0;
for(long k = 0; k < (long)S.size(); k++)
    sum += S[k] * A[std::min<long>(N-1, std::max<long>(0, i + k - center))];
``` -/
def stencil_point {R : Type} [Semiring R] (S A : List R) (center : Int) (i : Nat) : Option R :=
  (List.range S.length).foldlM (fun sum (k : Nat) => do
    let s ← S[k]?
    let a ← read_at A (stencil_src A.length i k center)
    pure (sum + s * a)) 0

/-- One pass `for(long i = 0; i < N; i++) { ...; B[i] = sum; }`. -/
def stencil_pass {R : Type} [Semiring R] (S A : List R) (center : Int) (B : List R) :
    Option (List R) :=
  (List.range A.length).foldlM (fun B (i : Nat) => do
    let sum ← stencil_point S A center i
    if i < B.length then pure (B.set i sum) else none) B

/-- The timing loop `for(long j = 0; j < M; j++)` around the pass. -/
def stencil_loop {R : Type} [Semiring R] (S A : List R) (center : Int) :
    Nat → List R → Option (List R)
  | 0, B => some B
  | M + 1, B => do
    let B1 ← stencil_pass S A center B
    stencil_loop S A center M B1

/-- Host reference of `benchmark_stencil`: `std::vector<real> B(N)` and `M` passes. -/
def stencil_host {R : Type} [Semiring R] (M : Nat) (S A : List R) (center : Int) :
    Option (List R) :=
  stencil_loop S A center M (List.replicate A.length 0)

/-! ## CSR builder and host reference multiply of `benchmark_spmv` (`examples/benchmark.cpp`)

The grid size `n` (the constant `128` in the source) is a parameter.  Integer
model: `size_t` values are naturals; sizes, positions and row pointers count
stored elements and are exact.  The two operations that can change a value are
explicit: unsigned subtraction (`size_sub`, wraps around below zero) and the
conversion to the 32-bit element type of `col` (`to_uint`).  `real` is an
arbitrary commutative ring (exact arithmetic).  Reads return `Option`, `none`
standing for an out-of-bounds access.  `spmv_fill` is the loop nest that starts
at `row.push_back(0)`; the `reserve` calls in front of it are part of
`spmv_build` further down. -/

/-- Subtraction `a - b` of two `size_t` values: wraps around (mod `2^64`) when
`b > a`. -/
def size_sub (a b : Nat) : Nat := if b ≤ a then a - b else a + 2 ^ 64 - b

/-- Conversion of a `size_t` value to the 32-bit `uint` element type of `col`. -/
def to_uint (x : Nat) : Nat := x % 2 ^ 32

/-- The arrays under construction in `benchmark_spmv` together with the running
cell counter `idx` of the loop nest. -/
structure CsrState (R : Type) where
  idx : Nat
  row : List Nat
  col : List Nat
  val : List R

/-- Value of `row.back()`; `row` is never empty (it starts as `[0]`). -/
def row_back (row : List Nat) : Nat := row.getLastD 0

/-- Test of the builder loops:
`i == 0 || i == (n - 1) || j == 0 || j == (n - 1) || k == 0 || k == (n - 1)`. -/
def is_boundary (n i j k : Nat) : Bool :=
  i == 0 || i == size_sub n 1 || j == 0 || j == size_sub n 1 ||
  k == 0 || k == size_sub n 1

/-- Body of the innermost loop of the CSR builder of `benchmark_spmv`, followed
by the increment `i++, idx++`: an identity row for a boundary cell, the
seven-point row for an interior cell. -/
def spmv_cell {R : Type} [CommRing R] (n : Nat) (h2i : R) (k j i : Nat)
    (st : CsrState R) : CsrState R :=
  if is_boundary n i j k then
    { idx := st.idx + 1
      col := st.col ++ [to_uint st.idx]
      val := st.val ++ [1]
      row := st.row ++ [row_back st.row + 1] }
  else
    { idx := st.idx + 1
      col := st.col ++
        [to_uint (size_sub st.idx (n * n)), to_uint (size_sub st.idx n),
         to_uint (size_sub st.idx 1), to_uint st.idx, to_uint (st.idx + 1),
         to_uint (st.idx + n), to_uint (st.idx + n * n)]
      val := st.val ++ [-h2i, -h2i, -h2i, 6 * h2i, -h2i, -h2i, -h2i]
      row := st.row ++ [row_back st.row + 7] }

/-- Constant `h2i = (n - 1) * (n - 1)`, computed in `size_t` and converted to
`real`. -/
def spmv_h2i (R : Type) [CommRing R] (n : Nat) : R :=
  ((size_sub n 1 * size_sub n 1 : Nat) : R)

/-- Loop nest of the CSR builder of `benchmark_spmv` (lines 350-389):
`row.push_back(0)` and the loops over `k`, `j`, `i` (`idx` runs along with
`i`). -/
def spmv_fill (R : Type) [CommRing R] (n : Nat) : CsrState R :=
  (List.range n).foldl (fun st k =>
    (List.range n).foldl (fun st j =>
      (List.range n).foldl (fun st i => spmv_cell n (spmv_h2i R n) k j i st) st) st)
    { idx := 0, row := [0], col := [], val := [] }

/-- Row product of the host reference multiply:
```
real s = 0;
for(size_t j = row[i]; j < row[i + 1]; j++)
    s += val[j] * X[col[j]];
```
`none` if any read is out of bounds. -/
def spmv_row {R : Type} [CommRing R] (row col : List Nat) (val X : List R) (i : Nat) :
    Option R := do
  let lo ← row[i]?
  let hi ← row[i + 1]?
  (List.range' lo (hi - lo)).foldlM (fun s (j : Nat) => do
    let v ← val[j]?
    let c ← col[j]?
    let x ← X[c]?
    pure (s + v * x)) 0

/-- One pass `for(size_t i = 0; i < N; i++) { ...; Y[i] += s; }`. -/
def spmv_pass {R : Type} [CommRing R] (N : Nat) (row col : List Nat) (val X Y : List R) :
    Option (List R) :=
  (List.range N).foldlM (fun Y (i : Nat) => do
    let s ← spmv_row row col val X i
    let y ← Y[i]?
    pure (Y.set i (y + s))) Y

/-- The repetition loop `for(size_t k = 0; k < M; k++)` around the pass. -/
def spmv_loop {R : Type} [CommRing R] (N : Nat) (row col : List Nat) (val X : List R) :
    Nat → List R → Option (List R)
  | 0, Y => some Y
  | M + 1, Y => do
    let Y1 ← spmv_pass N row col val X Y
    spmv_loop N row col val X M Y1

/-- Column entries pushed for the cell with counter `idx` (`b`: boundary cell). -/
def cell_cols (n idx : Nat) (b : Bool) : List Nat :=
  if b then [to_uint idx]
  else [to_uint (size_sub idx (n * n)), to_uint (size_sub idx n), to_uint (size_sub idx 1),
        to_uint idx, to_uint (idx + 1), to_uint (idx + n), to_uint (idx + n * n)]

/-- Values pushed for a cell (`b`: boundary cell). -/
def cell_vals {R : Type} [CommRing R] (h2i : R) (b : Bool) : List R :=
  if b then [1] else [-h2i, -h2i, -h2i, 6 * h2i, -h2i, -h2i, -h2i]

/-- Boundary test of the cell visited when the counter `idx` equals `r`:
the loop variables are `i = r % n`, `j = r / n % n`, `k = r / (n*n)`. -/
def cell_boundary (n r : Nat) : Bool := is_boundary n (r % n) (r / n % n) (r / (n * n))

/-- Loop invariant of the CSR builder after `m` cells. -/
structure CsrInv {R : Type} [CommRing R] (n : Nat) (h2i : R) (m : Nat)
    (st : CsrState R) : Prop where
  idx_eq : st.idx = m
  row_len : st.row.length = m + 1
  row_zero : st.row[0]? = some 0
  val_len : st.val.length = st.col.length
  row_last : st.row[m]? = some st.col.length
  col_lt : ∀ c ∈ st.col, c < n * n * n
  rows : ∀ r, r < m → ∃ off, st.row[r]? = some off ∧
    st.row[r + 1]? = some (off + (cell_cols n r (cell_boundary n r)).length) ∧
    off + (cell_cols n r (cell_boundary n r)).length ≤ st.col.length ∧
    ∀ t, t < (cell_cols n r (cell_boundary n r)).length →
      st.col[off + t]? = (cell_cols n r (cell_boundary n r))[t]? ∧
      st.val[off + t]? = (cell_vals h2i (cell_boundary n r))[t]?

/-! ## Arrays of `benchmark_spmv_ccsr` (`examples/benchmark.cpp`)

Here `n` is a `uint`: products and differences of `n` are taken mod `2^32`
(`uint_mul`, `uint_sub`) and converted to `int` through the bit pattern
(`int_of_bits`).  The loop counters are `size_t` and range over `[0, n)`. -/

/-- Subtraction `a - b` of two 32-bit `uint` values: wraps around (mod `2^32`)
when `b > a`. -/
def uint_sub (a b : Nat) : Nat := if b ≤ a then a - b else a + 2 ^ 32 - b

/-- Product of two 32-bit `uint` values (mod `2^32`). -/
def uint_mul (a b : Nat) : Nat := (a * b) % 2 ^ 32

/-- The arrays built by `benchmark_spmv_ccsr`: per-row pattern index `idx`,
pattern row pointers `row`, relative column offsets `col` (of type `int`) and
pattern values `val`. -/
structure CcsrArrays (R : Type) where
  idx : List Nat
  row : List Nat
  col : List Int
  val : List R

/-- Test of the loops of `benchmark_spmv_ccsr` (`n` is a `uint` there):
`i == 0 || i == (n - 1) || j == 0 || j == (n - 1) || k == 0 || k == (n - 1)`. -/
def ccsr_is_boundary (n i j k : Nat) : Bool :=
  i == 0 || i == uint_sub n 1 || j == 0 || j == uint_sub n 1 ||
  k == 0 || k == uint_sub n 1

/-- Body of the innermost loop of `benchmark_spmv_ccsr`: `idx.push_back(0)` for
a boundary cell, `idx.push_back(1)` otherwise. -/
def ccsr_cell (n k j i : Nat) (idx : List Nat) : List Nat :=
  if ccsr_is_boundary n i j k then idx ++ [0] else idx ++ [1]

/-- Constant `h2i = (n - 1) * (n - 1)` of `benchmark_spmv_ccsr`, computed in
`uint` and converted to `real`. -/
def ccsr_h2i (R : Type) [CommRing R] (n : Nat) : R :=
  ((uint_mul (uint_sub n 1) (uint_sub n 1) : Nat) : R)

/-- Arrays built by `benchmark_spmv_ccsr` for grid size `n`: the two patterns
(`row`, `col`, `val` assigned element by element) and the loop nest filling
`idx`. -/
def ccsr_build (R : Type) [CommRing R] (n : Nat) : CcsrArrays R :=
  { row := [0, 1, 8]
    col := [0, -int_of_bits (uint_mul n n), -int_of_bits n, -1, 0, 1,
            int_of_bits n, int_of_bits (uint_mul n n)]
    val := [1, -ccsr_h2i R n, -ccsr_h2i R n, -ccsr_h2i R n, ccsr_h2i R n * 6,
            -ccsr_h2i R n, -ccsr_h2i R n, -ccsr_h2i R n]
    idx := (List.range n).foldl (fun idx k =>
      (List.range n).foldl (fun idx j =>
        (List.range n).foldl (fun idx i => ccsr_cell n k j i idx) idx) idx) [] }

/-- Row count `n * n * n` passed to the `SpMatCCSR` constructor (a `uint`
product). -/
def ccsr_rows (n : Nat) : Nat := uint_mul (uint_mul n n) n

/-- Pattern count passed to the `SpMatCCSR` constructor (the literal `2`). -/
def ccsr_pattern_count : Nat := 2

/-- Modelled from the spec: the construction-time validation of the compact
sparse matrix (§4.4, §7; `vexcl/spmat.hpp` is not among the sources): the
pattern count is at least one and the pattern index of every row is below it;
otherwise construction fails with `InvalidArgumentError`. -/
def ccsr_validate (rows K : Nat) (idx : List Nat) : Except Error Unit :=
  if 1 ≤ K ∧ ∀ r, r < rows → idx.getD r 0 < K then .ok ()
  else .error .InvalidArgumentError

/-- Boundary test of the cell with running number `r`. -/
def ccsr_cell_boundary (n r : Nat) : Bool :=
  ccsr_is_boundary n (r % n) (r / n % n) (r / (n * n))

/-- Loop invariant of the `idx` loops of `benchmark_spmv_ccsr` after `m` cells. -/
def CcsrInv (n m : Nat) (idx : List Nat) : Prop :=
  idx.length = m ∧ ∀ r, r < m → idx[r]? = some (if ccsr_cell_boundary n r then 0 else 1)

/-! ## Host reference of `benchmark_saxpy` (`examples/benchmark.cpp`)

The vector length `N` (the constant `1024 * 1024` in the source) is the length
of `B`, the repetition count `M` and the factor `alpha` are parameters; `real`
is an arbitrary commutative ring (exact arithmetic). -/

/-- One pass of the host loop of `benchmark_saxpy`:
```
for(size_t j = 0; j < N; j++)
    A[j] = alpha * A[j] + B[j];
``` -/
def saxpy_pass {R : Type} [CommRing R] (N : Nat) (alpha : R) (B A : List R) :
    Option (List R) :=
  (List.range N).foldlM (fun A (j : Nat) => do
    let a ← A[j]?
    let b ← B[j]?
    pure (A.set j (alpha * a + b))) A

/-- The repetition loop `for(size_t i = 0; i < M; i++)` around the pass. -/
def saxpy_loop {R : Type} [CommRing R] (N : Nat) (alpha : R) (B : List R) :
    Nat → List R → Option (List R)
  | 0, A => some A
  | M + 1, A => do
    let A1 ← saxpy_pass N alpha B A
    saxpy_loop N alpha B M A1

/-- Host reference of `benchmark_saxpy` with `M` repetitions:
`std::vector<real> A(N, 0)` and `B` of the same length `N`. -/
def saxpy_host {R : Type} [CommRing R] (M : Nat) (alpha : R) (B : List R) :
    Option (List R) :=
  saxpy_loop B.length alpha B M (List.replicate B.length 0)

/-! ## Entry counts of `benchmark_spmv` and `benchmark_spmv_ccsr` (`examples/benchmark.cpp`) -/

/-- Capacity requested for `col` and `val` in `benchmark_spmv`:
`6 * (n - 2) * (n - 2) * (n - 2) + n * n * n` on `size_t`. -/
def spmv_reserve (n : Nat) : Nat :=
  6 * size_sub n 2 * size_sub n 2 * size_sub n 2 + n * n * n

/-- Limits `max_size()` of the three vectors of `benchmark_spmv`:
`std::vector<size_t> row`, `std::vector<uint> col`, `std::vector<real> val`. -/
structure MaxSize where
  row : Nat
  col : Nat
  val : Nat

/-- Value of an expression as a `size_t` (mod `2^64`). -/
def to_size (x : Nat) : Nat := x % 2 ^ 64

/-- Call `v.reserve(k)` on a vector with the given `max_size()`: throws
`std::length_error` (`none`) when `k > max_size()`, otherwise changes only the
capacity. -/
def reserve (max_size k : Nat) : Option Unit :=
  if k ≤ max_size then some () else none

/-- CSR builder of `benchmark_spmv` (lines 346-389):
```
row.reserve(n * n * n + 1);
col.reserve(6 * (n - 2) * (n - 2) * (n - 2) + n * n * n);
val.reserve(6 * (n - 2) * (n - 2) * (n - 2) + n * n * n);
```
followed by the loop nest `spmv_fill`. -/
def spmv_build (R : Type) [CommRing R] (ms : MaxSize) (n : Nat) : Option (CsrState R) := do
  reserve ms.row (to_size (n * n * n + 1))
  reserve ms.col (to_size (spmv_reserve n))
  reserve ms.val (to_size (spmv_reserve n))
  pure (spmv_fill R n)

/-- Host reference multiply of `benchmark_spmv` on grid size `n` with `M`
passes, on the arrays of `spmv_build`: `X` is the constant vector `c` of length
`n*n*n`, `Y` starts at `0`. -/
def spmv_host {R : Type} [CommRing R] (ms : MaxSize) (n M : Nat) (c : R) :
    Option (List R) := do
  let st ← spmv_build R ms n
  spmv_loop (n * n * n) st.row st.col st.val
    (List.replicate (n * n * n) c) M (List.replicate (n * n * n) 0)

/-! ## Host reference multiply of `benchmark_spmv_ccsr` and the entries both multiplies read (`examples/benchmark.cpp`) -/

/-- Index expression `i + col[j]` of the CCSR reference multiply: `i` is a
`size_t`, `col[j]` an `int` that is converted to `size_t`; the sum is taken
mod `2^64`. -/
def size_add_int (i : Nat) (c : Int) : Nat := (((i : Int) + c) % (2 : Int) ^ 64).toNat

/-- Row product of the host reference multiply of `benchmark_spmv_ccsr`:
```
real s = 0;
for(size_t j = row[idx[i]]; j < row[idx[i] + 1]; j++)
    s += val[j] * X[i + col[j]];
```
`none` if any read is out of bounds. -/
def ccsr_row {R : Type} [CommRing R] (idx row : List Nat) (col : List Int) (val X : List R)
    (i : Nat) : Option R := do
  let p ← idx[i]?
  let lo ← row[p]?
  let hi ← row[p + 1]?
  (List.range' lo (hi - lo)).foldlM (fun s (j : Nat) => do
    let v ← val[j]?
    let c ← col[j]?
    let x ← X[size_add_int i c]?
    pure (s + v * x)) 0

/-- One pass `for(size_t i = 0; i < N; i++) { ...; Y[i] += s; }` of the CCSR
reference multiply. -/
def ccsr_pass {R : Type} [CommRing R] (N : Nat) (idx row : List Nat) (col : List Int)
    (val X Y : List R) : Option (List R) :=
  (List.range N).foldlM (fun Y (i : Nat) => do
    let s ← ccsr_row idx row col val X i
    let y ← Y[i]?
    pure (Y.set i (y + s))) Y

/-- The repetition loop `for(size_t k = 0; k < M; k++)` around the CCSR pass. -/
def ccsr_loop {R : Type} [CommRing R] (N : Nat) (idx row : List Nat) (col : List Int)
    (val X : List R) : Nat → List R → Option (List R)
  | 0, Y => some Y
  | M + 1, Y => do
    let Y1 ← ccsr_pass N idx row col val X Y
    ccsr_loop N idx row col val X M Y1

/-- Host reference multiply of `benchmark_spmv_ccsr` on grid size `n` with `M`
passes: `N = n * n * n` is a `uint` product, `X` is the constant vector `c` of
length `N`, `Y` starts at `0`. -/
def ccsr_host {R : Type} [CommRing R] (n M : Nat) (c : R) : Option (List R) :=
  let A := ccsr_build R n
  ccsr_loop (ccsr_rows n) A.idx A.row A.col A.val
    (List.replicate (ccsr_rows n) c) M (List.replicate (ccsr_rows n) 0)

/-- The entries of row `i` as the CSR reference multiply of `benchmark_spmv`
reads them: the pairs `(col[j], val[j])` for `j` in `[row[i], row[i+1])`, in
loop order. -/
def csr_row_entries {R : Type} (row col : List Nat) (val : List R) (i : Nat) :
    Option (List (Nat × R)) := do
  let lo ← row[i]?
  let hi ← row[i + 1]?
  (List.range' lo (hi - lo)).foldlM (fun acc (j : Nat) => do
    let v ← val[j]?
    let c ← col[j]?
    pure (acc ++ [(c, v)])) []

/-- The entries of row `i` as the CCSR reference multiply of
`benchmark_spmv_ccsr` reads them: the pairs `(i + col[j], val[j])` for `j` in
`[row[idx[i]], row[idx[i]+1])`, in loop order. -/
def ccsr_row_entries {R : Type} (idx row : List Nat) (col : List Int) (val : List R)
    (i : Nat) : Option (List (Nat × R)) := do
  let p ← idx[i]?
  let lo ← row[p]?
  let hi ← row[p + 1]?
  (List.range' lo (hi - lo)).foldlM (fun acc (j : Nat) => do
    let v ← val[j]?
    let c ← col[j]?
    pure (acc ++ [(size_add_int i c, v)])) []

/-! ## Theorems -/

theorem int_and_one (a : Int) : int_and 1 a = a % 2 := by
  have h1 : int_bits 1 = 1 := by decide
  have hnn : 0 ≤ a % (2 : Int) ^ 32 := Int.emod_nonneg _ (by norm_num)
  have hcast : ((int_bits a : Nat) : Int) = a % (2 : Int) ^ 32 := by
    unfold int_bits; exact Int.toNat_of_nonneg hnn
  have hland : Nat.land 1 (int_bits a) = int_bits a % 2 := Nat.one_and_eq_mod_two _
  have hlt : int_bits a % 2 < 2 := Nat.mod_lt _ (by decide)
  unfold int_and int_of_bits
  rw [h1, hland, if_pos (by omega)]
  push_cast
  rw [hcast]
  omega

theorem to_char_bit (a : Int) : to_char (a % 2) = a % 2 := by
  unfold to_char; omega

theorem even_first_eq (a b : Int) :
    even_first a b = if a % 2 = b % 2 then decide (a < b) else decide (a % 2 < b % 2) := by
  simp only [even_first, int_and_one, to_char_bit]

/-- C3: on 32-bit signed ints (negative values included) the host predicate
`even_first` is a strict total order: irreflexive, asymmetric, transitive, and
for `a ≠ b` exactly one of `even_first(a,b)`, `even_first(b,a)` holds. -/
theorem even_first_strict_total_order (a b c : Int)
    (_ha : is_int32 a) (_hb : is_int32 b) (_hc : is_int32 c) :
    even_first a a = false ∧
    (even_first a b = true → even_first b a = false) ∧
    (even_first a b = true → even_first b c = true → even_first a c = true) ∧
    (a ≠ b → (even_first a b = true ∧ even_first b a = false) ∨
             (even_first a b = false ∧ even_first b a = true)) := by
  simp only [even_first_eq]
  refine ⟨?_, ?_, ?_, ?_⟩
  · simp
  · intro h
    split at h <;> split <;> simp only [decide_eq_true_eq, decide_eq_false_iff_not] at h ⊢ <;> omega
  · intro h1 h2
    split at h1 <;> split at h2 <;> split <;>
      simp only [decide_eq_true_eq, decide_eq_false_iff_not] at h1 h2 ⊢ <;> omega
  · intro hne
    by_cases hp : a % 2 = b % 2
    · rw [if_pos hp, if_pos hp.symm]
      simp only [decide_eq_true_eq, decide_eq_false_iff_not]
      omega
    · rw [if_neg hp, if_neg (fun h => hp h.symm)]
      simp only [decide_eq_true_eq, decide_eq_false_iff_not]
      omega

theorem even_first_strict_total_order_witness :
    (is_int32 (-4) ∧ is_int32 (-3) ∧ is_int32 5) ∧
    (even_first (-4) (-4) = false ∧
     (even_first (-4) (-3) = true → even_first (-3) (-4) = false) ∧
     (even_first (-4) (-3) = true → even_first (-3) 5 = true → even_first (-4) 5 = true) ∧
     ((-4 : Int) ≠ -3 → (even_first (-4) (-3) = true ∧ even_first (-3) (-4) = false) ∨
                        (even_first (-4) (-3) = false ∧ even_first (-3) (-4) = true))) :=
  ⟨⟨by decide, by decide, by decide⟩,
   even_first_strict_total_order (-4) (-3) 5 (by decide) (by decide) (by decide)⟩

/-- C8: for 32-bit signed ints `a`, `b` (negative values included): if `a` is
even and `b` is odd then `even_first(a,b)` is true and `even_first(b,a)` is
false; if `a` and `b` have the same parity then `even_first(a,b)` holds exactly
when `a < b`. -/
theorem even_first_even_before_odd (a b : Int) (_ha : is_int32 a) (_hb : is_int32 b) :
    (a % 2 = 0 → b % 2 = 1 → even_first a b = true ∧ even_first b a = false) ∧
    (a % 2 = b % 2 → (even_first a b = true ↔ a < b)) := by
  simp only [even_first_eq]
  constructor
  · intro h0 h1
    rw [if_neg (by omega), if_neg (by omega)]
    simp only [decide_eq_true_eq, decide_eq_false_iff_not]
    omega
  · intro hp
    rw [if_pos hp]
    simp

theorem even_first_even_before_odd_witness :
    (is_int32 (-6) ∧ is_int32 (-7)) ∧
    (((-6 : Int) % 2 = 0 → (-7 : Int) % 2 = 1 →
        even_first (-6) (-7) = true ∧ even_first (-7) (-6) = false) ∧
     ((-6 : Int) % 2 = (-7 : Int) % 2 → (even_first (-6) (-7) = true ↔ (-6 : Int) < -7))) :=
  ⟨⟨by decide, by decide⟩, even_first_even_before_odd (-6) (-7) (by decide) (by decide)⟩

/-- C9: the device body registered for `even_first` through `VEX_FUNCTION`,
read as a function of `(prm1, prm2)`, returns on every pair of 32-bit signed
ints the same boolean as the host `operator()(a, b)`. -/
theorem even_first_device_eq_host (a b : Int) (_ha : is_int32 a) (_hb : is_int32 b) :
    even_first_device a b = even_first a b := by
  unfold even_first_device even_first
  rfl

theorem even_first_device_eq_host_witness :
    (is_int32 (-2147483648) ∧ is_int32 2147483647) ∧
    even_first_device (-2147483648) 2147483647 = even_first (-2147483648) 2147483647 :=
  ⟨⟨by decide, by decide⟩, even_first_device_eq_host _ _ (by decide) (by decide)⟩

/-! ### Sort engine -/

theorem is_sorted_of_ordered {α : Type} (comp : α → α → Bool) :
    ∀ l : List α, Ordered comp l → is_sorted comp l = true
  | [], _ => rfl
  | [_], _ => rfl
  | a :: b :: rest, h => by
    unfold Ordered at h
    rw [List.pairwise_cons] at h
    have hab : comp b a = false := h.1 b (List.mem_cons_self _ _)
    have := is_sorted_of_ordered comp (b :: rest) h.2
    simp [is_sorted, hab, this]

theorem mem_insert_sorted {α : Type} (comp : α → α → Bool) (x z : α) :
    ∀ l : List α, z ∈ insert_sorted comp x l → z = x ∨ z ∈ l
  | [], h => by simpa [insert_sorted] using h
  | y :: ys, h => by
    unfold insert_sorted at h
    split at h
    · simpa using h
    · rcases List.mem_cons.1 h with h | h
      · exact Or.inr (h ▸ List.mem_cons_self _ _)
      · rcases mem_insert_sorted comp x z ys h with h | h
        · exact Or.inl h
        · exact Or.inr (List.mem_cons_of_mem _ h)

theorem ordered_insert_sorted {α : Type} {comp : α → α → Bool} (hc : StrictWeak comp) (x : α) :
    ∀ l : List α, Ordered comp l → Ordered comp (insert_sorted comp x l)
  | [], _ => by simp [insert_sorted, Ordered]
  | y :: ys, h => by
    unfold Ordered at h ⊢
    rw [List.pairwise_cons] at h
    unfold insert_sorted
    by_cases hxy : comp x y = true
    · rw [if_pos hxy]
      refine List.pairwise_cons.2 ⟨?_, List.pairwise_cons.2 h⟩
      intro z hz
      rcases List.mem_cons.1 hz with hz | hz
      · subst hz; exact hc.asymm _ _ hxy
      · exact hc.ntrans _ _ _ (hc.asymm _ _ hxy) (h.1 z hz)
    · rw [if_neg hxy]
      refine List.pairwise_cons.2 ⟨?_, ordered_insert_sorted hc x ys h.2⟩
      intro z hz
      rcases mem_insert_sorted comp x z ys hz with hz | hz
      · subst hz; simpa using hxy
      · exact h.1 z hz

theorem ordered_local_sort {α : Type} {comp : α → α → Bool} (hc : StrictWeak comp) :
    ∀ l : List α, Ordered comp (local_sort comp l)
  | [] => by simp [local_sort, Ordered]
  | x :: xs => ordered_insert_sorted hc x _ (ordered_local_sort hc xs)

theorem mem_merge {α : Type} (comp : α → α → Bool) (z : α) :
    ∀ xs ys : List α, z ∈ merge comp xs ys → z ∈ xs ∨ z ∈ ys := by
  intro xs
  induction xs with
  | nil => intro ys h; exact Or.inr (by simpa [merge] using h)
  | cons x xs ih =>
    intro ys
    induction ys with
    | nil => intro h; exact Or.inl (by simpa [merge, merge_step] using h)
    | cons y ys ihy =>
      intro h
      simp only [merge, merge_step] at h ihy
      split at h
      · rcases List.mem_cons.1 h with h | h
        · exact Or.inr (h ▸ List.mem_cons_self _ _)
        · rcases ihy h with h | h
          · exact Or.inl h
          · exact Or.inr (List.mem_cons_of_mem _ h)
      · rcases List.mem_cons.1 h with h | h
        · exact Or.inl (h ▸ List.mem_cons_self _ _)
        · rcases ih _ h with h | h
          · exact Or.inl (List.mem_cons_of_mem _ h)
          · exact Or.inr h

theorem ordered_merge {α : Type} {comp : α → α → Bool} (hc : StrictWeak comp) :
    ∀ xs ys : List α, Ordered comp xs → Ordered comp ys → Ordered comp (merge comp xs ys) := by
  intro xs
  induction xs with
  | nil => intro ys _ h; simpa [merge] using h
  | cons x xs ih =>
    intro ys
    induction ys with
    | nil => intro h _; simpa [merge, merge_step] using h
    | cons y ys ihy =>
      intro hx hy
      have hx' := List.pairwise_cons.1 hx
      have hy' := List.pairwise_cons.1 hy
      simp only [merge, merge_step] at ihy ⊢
      by_cases hyx : comp y x = true
      · rw [if_pos hyx]
        refine List.pairwise_cons.2 ⟨?_, ihy hx hy'.2⟩
        intro z hz
        have hz' : z ∈ merge comp (x :: xs) ys := by simpa [merge] using hz
        rcases mem_merge comp z _ _ hz' with hz | hz
        · rcases List.mem_cons.1 hz with hz | hz
          · subst hz; exact hc.asymm _ _ hyx
          · exact hc.ntrans _ _ _ (hc.asymm _ _ hyx) (hx'.1 z hz)
        · exact hy'.1 z hz
      · rw [if_neg hyx]
        refine List.pairwise_cons.2 ⟨?_, ih _ hx'.2 hy⟩
        intro z hz
        rcases mem_merge comp z _ _ hz with hz | hz
        · exact hx'.1 z hz
        · rcases List.mem_cons.1 hz with hz | hz
          · subst hz; simpa using hyx
          · exact hc.ntrans _ _ _ (by simpa using hyx) (hy'.1 z hz)

theorem ordered_foldl_merge {α : Type} {comp : α → α → Bool} (hc : StrictWeak comp) :
    ∀ (parts : List (List α)) (acc : List α), Ordered comp acc →
      (∀ p ∈ parts, Ordered comp p) → Ordered comp (parts.foldl (merge comp) acc)
  | [], _, h, _ => h
  | p :: ps, acc, h, hp => by
    rw [List.foldl_cons]
    exact ordered_foldl_merge hc ps _
      (ordered_merge hc _ _ h (hp p (List.mem_cons_self _ _)))
      (fun q hq => hp q (List.mem_cons_of_mem _ hq))

theorem flatten_slices {α : Type} (xs : List α) (D : Nat) :
    ∀ m : Nat, ((List.range m).map fun p =>
        (xs.drop (p * xs.length / D)).take ((p + 1) * xs.length / D - p * xs.length / D)).flatten
      = xs.take (m * xs.length / D)
  | 0 => by simp
  | m + 1 => by
    have hle : m * xs.length / D ≤ (m + 1) * xs.length / D :=
      Nat.div_le_div_right (Nat.mul_le_mul_right _ (Nat.le_succ m))
    rw [List.range_succ, List.map_append, List.flatten_append, flatten_slices xs D m]
    simp only [List.map_cons, List.map_nil, List.flatten_cons, List.flatten_nil, List.append_nil]
    rw [← List.take_add, Nat.add_sub_cancel' hle]

theorem gather_distribute {α : Type} (D : Nat) (hD : 0 < D) (xs : List α) :
    gather (distribute D xs) = xs := by
  unfold gather distribute partition
  rw [List.map_map]
  have h := flatten_slices xs D D
  rw [Nat.mul_div_cancel_left _ hD, List.take_length] at h
  exact h

theorem ordered_sorted_run {α : Type} {comp : α → α → Bool} (hc : StrictWeak comp)
    (D : Nat) (hD : 0 < D) (xs : List α) :
    Ordered comp (gather (sort_parts comp D xs)) := by
  unfold sort_parts
  simp only
  rw [gather_distribute D hD]
  refine ordered_foldl_merge hc _ [] List.Pairwise.nil ?_
  intro p hp
  rcases List.mem_map.1 hp with ⟨q, _, rfl⟩
  exact ordered_local_sort hc q

theorem strictWeak_on_keys {K V : Type} {comp : K → K → Bool} (hc : StrictWeak comp) :
    StrictWeak (fun p q : K × V => comp p.1 q.1) :=
  ⟨fun a b => hc.asymm a.1 b.1, fun a b c => hc.ntrans a.1 b.1 c.1⟩

theorem ordered_map_fst {K V : Type} (comp : K → K → Bool) (l : List (K × V))
    (h : Ordered (fun p q : K × V => comp p.1 q.1) l) : Ordered comp (l.map Prod.fst) := by
  unfold Ordered at h ⊢
  rw [List.pairwise_map]
  exact h

theorem sort_ok {K : Type} {comp : K → K → Bool} (hc : StrictWeak comp)
    (D : Nat) (hD : 0 < D) (keys : List K) :
    ∃ out, sort comp D keys = .ok out ∧ is_sorted comp out = true := by
  refine ⟨gather (sort_parts comp D keys), ?_, ?_⟩
  · unfold sort; rw [if_neg (Nat.pos_iff_ne_zero.1 hD)]
  · exact is_sorted_of_ordered comp _ (ordered_sorted_run hc D hD keys)

theorem sort_by_key_ok {K V : Type} {comp : K → K → Bool} (hc : StrictWeak comp)
    (D : Nat) (hD : 0 < D) (keys : List K) (vals : List V) (hlen : keys.length = vals.length) :
    ∃ ks vs, sort_by_key comp D keys vals = .ok (ks, vs) ∧ is_sorted comp ks = true := by
  refine ⟨(gather (sort_parts (fun p q : K × V => comp p.1 q.1) D (keys.zip vals))).map Prod.fst,
    (gather (sort_parts (fun p q : K × V => comp p.1 q.1) D (keys.zip vals))).map Prod.snd,
    ?_, ?_⟩
  · unfold sort_by_key
    rw [if_neg (Nat.pos_iff_ne_zero.1 hD), if_neg (not_not.2 hlen)]
  · exact is_sorted_of_ordered comp _
      (ordered_map_fst comp _ (ordered_sorted_run (strictWeak_on_keys hc) D hD _))

theorem strictWeak_less {K : Type} [LinearOrder K] : StrictWeak (less : K → K → Bool) := by
  constructor
  · intro a b h
    simp only [less, decide_eq_true_eq, decide_eq_false_iff_not, not_lt] at h ⊢
    exact le_of_lt h
  · intro a b c h1 h2
    simp only [less, decide_eq_true_eq, decide_eq_false_iff_not, not_lt] at h1 h2 ⊢
    exact le_trans h1 h2

theorem strictWeak_even_first : StrictWeak even_first := by
  constructor
  · intro a b h
    rw [even_first_eq] at h ⊢
    split at h <;> split <;> simp only [decide_eq_true_eq, decide_eq_false_iff_not] at h ⊢ <;> omega
  · intro a b c h1 h2
    rw [even_first_eq] at h1 h2 ⊢
    split at h1 <;> split at h2 <;> split <;>
      simp only [decide_eq_true_eq, decide_eq_false_iff_not] at h1 h2 ⊢ <;> omega

/-- C1: on every context with at least one device and for every key vector
(keys of any linearly ordered type), `sort(keys)` succeeds and the keys read
back over the whole logical vector pass `std::is_sorted` under `<`; the same
holds for the keys after `sort_by_key(keys, vals)` with the default
comparator, for every value vector of the same length. -/
theorem sort_default_is_sorted {K V : Type} [LinearOrder K] (D : Nat) (hD : 0 < D)
    (keys : List K) (vals : List V) (hlen : keys.length = vals.length) :
    (∃ out, sort less D keys = .ok out ∧ is_sorted less out = true) ∧
    (∃ ks vs, sort_by_key less D keys vals = .ok (ks, vs) ∧ is_sorted less ks = true) :=
  ⟨sort_ok strictWeak_less D hD keys, sort_by_key_ok strictWeak_less D hD keys vals hlen⟩

theorem sort_default_is_sorted_witness :
    (0 < 3 ∧ [5, 3, 9, -1, 7, 2, 2, 0].length = [10, 20, 30, 40, 50, 60, 70, 80].length) ∧
    ((∃ out, sort less 3 ([5, 3, 9, -1, 7, 2, 2, 0] : List Int) = .ok out ∧
        is_sorted less out = true) ∧
     (∃ ks vs, sort_by_key less 3 ([5, 3, 9, -1, 7, 2, 2, 0] : List Int)
        ([10, 20, 30, 40, 50, 60, 70, 80] : List Nat) = .ok (ks, vs) ∧
        is_sorted less ks = true)) :=
  ⟨⟨by decide, by decide⟩, sort_default_is_sorted 3 (by decide) _ _ (by decide)⟩

/-- C2: on every context with at least one device and for every key vector
and value vector of the same length, `sort_by_key(keys, vals, even_first)`
succeeds and the keys read back pass `std::is_sorted(k, even_first)`: no
adjacent pair has `even_first(k[i+1], k[i])`. -/
theorem sort_by_key_even_first_is_sorted {V : Type} (D : Nat) (hD : 0 < D)
    (keys : List Int) (vals : List V) (hlen : keys.length = vals.length) :
    ∃ ks vs, sort_by_key even_first D keys vals = .ok (ks, vs) ∧
      is_sorted even_first ks = true :=
  sort_by_key_ok strictWeak_even_first D hD keys vals hlen

theorem sort_by_key_even_first_is_sorted_witness :
    (0 < 2 ∧ [5, 3, -4, -1, 7, 2, 2, 0].length = [10, 20, 30, 40, 50, 60, 70, 80].length) ∧
    (∃ ks vs, sort_by_key even_first 2 ([5, 3, -4, -1, 7, 2, 2, 0] : List Int)
        ([10, 20, 30, 40, 50, 60, 70, 80] : List Nat) = .ok (ks, vs) ∧
        is_sorted even_first ks = true) :=
  ⟨⟨by decide, by decide⟩, sort_by_key_even_first_is_sorted 2 (by decide) _ _ (by decide)⟩

/-! ### Stencil reference loop -/

theorem stencil_src_facts (N i k C : Int) (hN : 1 ≤ N) :
    (0 ≤ stencil_src N i k C ∧ stencil_src N i k C ≤ N - 1) ∧
    (0 ≤ i + k - C → i + k - C ≤ N - 1 → stencil_src N i k C = i + k - C) ∧
    (i + k - C < 0 → stencil_src N i k C = 0) ∧
    (N - 1 < i + k - C → stencil_src N i k C = N - 1) := by
  unfold stencil_src
  omega

/-- The read at the clamped source index is in bounds and returns the element at
the nearest valid index. -/
theorem read_at_src {R : Type} [Semiring R] (A : List R) (i k : Nat) (C : Int)
    (hN : 1 ≤ A.length) :
    read_at A (stencil_src A.length i k C) =
      some (A.getD (if (i : Int) + k - C < 0 then 0
        else if (A.length : Int) - 1 < (i : Int) + k - C then A.length - 1
        else ((i : Int) + k - C).toNat) 0) := by
  have hN' : (1 : Int) ≤ A.length := by exact_mod_cast hN
  obtain ⟨⟨h0, h1⟩, h2, h3, h4⟩ := stencil_src_facts A.length i k C hN'
  unfold read_at
  rw [if_pos h0]
  have hlt : (stencil_src A.length i k C).toNat < A.length := by omega
  have hidx : (stencil_src A.length i k C).toNat = (if (i : Int) + k - C < 0 then 0
        else if (A.length : Int) - 1 < (i : Int) + k - C then A.length - 1
        else ((i : Int) + k - C).toNat) := by
    split
    · rw [h3 (by assumption)]; rfl
    · split
      · rw [h4 (by assumption)]; omega
      · rw [h2 (by omega) (by omega)]
  rw [← hidx, List.getD_eq_getElem?_getD, List.getElem?_eq_getElem hlt]
  rfl

theorem foldlM_range_sum {R : Type} [Semiring R] (g : R → Nat → Option R) (f : Nat → R) :
    ∀ W : Nat, (∀ s k, k < W → g s k = some (s + f k)) →
      (List.range W).foldlM g 0 = some (∑ k in Finset.range W, f k)
  | 0, _ => by simp
  | W + 1, h => by
    rw [List.range_succ, List.foldlM_append,
      foldlM_range_sum g f W (fun s k hk => h s k (Nat.lt_succ_of_lt hk))]
    simp [h _ W (Nat.lt_succ_self W), Finset.sum_range_succ]

theorem stencil_point_eq {R : Type} [Semiring R] (S A : List R) (C : Int) (i : Nat)
    (hN : 1 ≤ A.length) :
    stencil_point S A C i = some (∑ k in Finset.range S.length,
      S.getD k 0 * A.getD (if (i : Int) + k - C < 0 then 0
        else if (A.length : Int) - 1 < (i : Int) + k - C then A.length - 1
        else ((i : Int) + k - C).toNat) 0) := by
  unfold stencil_point
  apply foldlM_range_sum
  intro s k hk
  rw [read_at_src A i k C hN, List.getElem?_eq_getElem hk]
  simp [List.getD_eq_getElem?_getD, List.getElem?_eq_getElem hk]

theorem foldlM_set_range {R : Type} (f : Nat → Option R) (v : Nat → R) (N : Nat)
    (hf : ∀ i, i < N → f i = some (v i)) :
    ∀ m : Nat, m ≤ N → ∀ B : List R, B.length = N →
      ∃ B1, (List.range m).foldlM (fun B (i : Nat) => do
          let sum ← f i
          if i < B.length then pure (B.set i sum) else none) B = some B1 ∧
        B1.length = N ∧ ∀ i, i < m → B1[i]? = some (v i)
  | 0, _, B, hB => ⟨B, by simp, hB, fun i hi => absurd hi (Nat.not_lt_zero i)⟩
  | m + 1, hm, B, hB => by
    obtain ⟨B1, h1, hlen, hget⟩ := foldlM_set_range f v N hf m (Nat.le_of_succ_le hm) B hB
    refine ⟨B1.set m (v m), ?_, by simp [hlen], ?_⟩
    · rw [List.range_succ, List.foldlM_append, h1]
      have hmN : m < B1.length := by omega
      simp [hf m (by omega), hmN]
    · intro i hi
      by_cases him : i = m
      · subst him
        rw [List.getElem?_set_self (by omega)]
      · rw [List.getElem?_set_ne (fun h => him h.symm)]
        exact hget i (by omega)

theorem stencil_pass_eq {R : Type} [Semiring R] (S A : List R) (C : Int)
    (hN : 1 ≤ A.length) (B : List R) (hB : B.length = A.length) :
    ∃ B1, stencil_pass S A C B = some B1 ∧ B1.length = A.length ∧
      ∀ i, i < A.length → B1[i]? = some (∑ k in Finset.range S.length,
        S.getD k 0 * A.getD (if (i : Int) + k - C < 0 then 0
          else if (A.length : Int) - 1 < (i : Int) + k - C then A.length - 1
          else ((i : Int) + k - C).toNat) 0) :=
  foldlM_set_range (stencil_point S A C) _ A.length
    (fun i _ => stencil_point_eq S A C i hN) A.length (Nat.le_refl _) B hB

theorem stencil_loop_eq {R : Type} [Semiring R] (S A : List R) (C : Int)
    (hN : 1 ≤ A.length) :
    ∀ (M : Nat) (B : List R), 1 ≤ M → B.length = A.length →
      ∃ B1, stencil_loop S A C M B = some B1 ∧ B1.length = A.length ∧
        ∀ i, i < A.length → B1[i]? = some (∑ k in Finset.range S.length,
          S.getD k 0 * A.getD (if (i : Int) + k - C < 0 then 0
            else if (A.length : Int) - 1 < (i : Int) + k - C then A.length - 1
            else ((i : Int) + k - C).toNat) 0)
  | 0, _, hM, _ => absurd hM (by decide)
  | M + 1, B, _, hB => by
    obtain ⟨B1, h1, hlen, hget⟩ := stencil_pass_eq S A C hN B hB
    unfold stencil_loop
    rw [h1]
    cases M with
    | zero => exact ⟨B1, by simp [stencil_loop], hlen, hget⟩
    | succ M =>
      obtain ⟨B2, h2, hlen2, hget2⟩ := stencil_loop_eq S A C hN (M + 1) B1 (by omega) hlen
      exact ⟨B2, by simpa using h2, hlen2, hget2⟩

/-- C4: in the host stencil reference loop, for every `N ≥ 1`, weight count
`W`, center `0 ≤ C < W`, position `i < N` and `k < W`, the source index
`min(N-1, max(0, i+k-C))` lies in `[0, N-1]`, equals `i+k-C` when that is in
`[0, N-1]`, `0` when `i+k-C < 0` and `N-1` when `i+k-C > N-1`; and after
`M ≥ 1` passes `B[i]` is the sum over `k < W` of `S[k]` times the element of
`A` at the nearest valid index to `i+k-C`. -/
theorem stencil_host_replicate_boundary {R : Type} [Semiring R] (M : Nat) (S A : List R)
    (C : Int) (i k : Nat) (hM : 1 ≤ M) (hN : 1 ≤ A.length)
    (_hC : 0 ≤ C ∧ C < S.length) (hi : i < A.length) (_hk : k < S.length) :
    ((0 ≤ stencil_src A.length i k C ∧ stencil_src A.length i k C ≤ (A.length : Int) - 1) ∧
     (0 ≤ (i : Int) + k - C → (i : Int) + k - C ≤ (A.length : Int) - 1 →
        stencil_src A.length i k C = (i : Int) + k - C) ∧
     ((i : Int) + k - C < 0 → stencil_src A.length i k C = 0) ∧
     ((A.length : Int) - 1 < (i : Int) + k - C →
        stencil_src A.length i k C = (A.length : Int) - 1)) ∧
    ∃ B, stencil_host M S A C = some B ∧ B.length = A.length ∧
      B[i]? = some (∑ k1 in Finset.range S.length,
        S.getD k1 0 * A.getD (if (i : Int) + k1 - C < 0 then 0
          else if (A.length : Int) - 1 < (i : Int) + k1 - C then A.length - 1
          else ((i : Int) + k1 - C).toNat) 0) := by
  refine ⟨stencil_src_facts A.length i k C (by exact_mod_cast hN), ?_⟩
  obtain ⟨B, h, hlen, hget⟩ :=
    stencil_loop_eq S A C hN M (List.replicate A.length 0) hM (by simp)
  exact ⟨B, h, hlen, hget i hi⟩

theorem stencil_host_replicate_boundary_witness :
    (1 ≤ 2 ∧ 1 ≤ ([1, 2, 3, 4] : List Int).length ∧
      ((0 : Int) ≤ 1 ∧ (1 : Int) < ([1, 10, 100] : List Int).length) ∧
      3 < ([1, 2, 3, 4] : List Int).length ∧ 2 < ([1, 10, 100] : List Int).length) ∧
    (((0 ≤ stencil_src ([1, 2, 3, 4] : List Int).length (3 : Nat) (2 : Nat) 1 ∧
        stencil_src ([1, 2, 3, 4] : List Int).length (3 : Nat) (2 : Nat) 1
          ≤ (([1, 2, 3, 4] : List Int).length : Int) - 1) ∧
     (0 ≤ ((3 : Nat) : Int) + (2 : Nat) - 1 →
        ((3 : Nat) : Int) + (2 : Nat) - 1 ≤ (([1, 2, 3, 4] : List Int).length : Int) - 1 →
        stencil_src ([1, 2, 3, 4] : List Int).length (3 : Nat) (2 : Nat) 1
          = ((3 : Nat) : Int) + (2 : Nat) - 1) ∧
     (((3 : Nat) : Int) + (2 : Nat) - 1 < 0 →
        stencil_src ([1, 2, 3, 4] : List Int).length (3 : Nat) (2 : Nat) 1 = 0) ∧
     ((([1, 2, 3, 4] : List Int).length : Int) - 1 < ((3 : Nat) : Int) + (2 : Nat) - 1 →
        stencil_src ([1, 2, 3, 4] : List Int).length (3 : Nat) (2 : Nat) 1
          = (([1, 2, 3, 4] : List Int).length : Int) - 1)) ∧
    ∃ B, stencil_host 2 [1, 10, 100] ([1, 2, 3, 4] : List Int) 1 = some B ∧
      B.length = ([1, 2, 3, 4] : List Int).length ∧
      B[3]? = some (∑ k1 in Finset.range ([1, 10, 100] : List Int).length,
        ([1, 10, 100] : List Int).getD k1 0 * ([1, 2, 3, 4] : List Int).getD
          (if ((3 : Nat) : Int) + k1 - 1 < 0 then 0
          else if (([1, 2, 3, 4] : List Int).length : Int) - 1 < ((3 : Nat) : Int) + k1 - 1
            then ([1, 2, 3, 4] : List Int).length - 1
          else (((3 : Nat) : Int) + k1 - 1).toNat) 0)) :=
  ⟨⟨by decide, by decide, ⟨by decide, by decide⟩, by decide, by decide⟩,
   stencil_host_replicate_boundary 2 [1, 10, 100] [1, 2, 3, 4] 1 3 2
     (by decide) (by decide) ⟨by decide, by decide⟩ (by decide) (by decide)⟩

/-! ### CSR builder and reference multiply -/

theorem size_sub_of_le (a b : Nat) (h : b ≤ a) : size_sub a b = a - b := by
  unfold size_sub; rw [if_pos h]

theorem is_boundary_iff (n i j k : Nat) (hn : 1 ≤ n) :
    is_boundary n i j k = true ↔
      (i = 0 ∨ i = n - 1 ∨ j = 0 ∨ j = n - 1 ∨ k = 0 ∨ k = n - 1) := by
  unfold is_boundary
  rw [size_sub_of_le n 1 hn]
  simp only [Bool.or_eq_true, beq_iff_eq]
  tauto

theorem interior_bounds (n i j k : Nat) (hi : 1 ≤ i ∧ i + 2 ≤ n) (hj : 1 ≤ j ∧ j + 2 ≤ n)
    (hk : 1 ≤ k ∧ k + 2 ≤ n) :
    n * n ≤ (k * n + j) * n + i ∧ (k * n + j) * n + i + n * n < n * n * n := by
  obtain ⟨d, rfl⟩ : ∃ d, n = k + 2 + d := ⟨n - (k + 2), by omega⟩
  obtain ⟨e, he⟩ : ∃ e, k + 2 + d = j + 2 + e := ⟨k + 2 + d - (j + 2), by omega⟩
  obtain ⟨k1, rfl⟩ : ∃ k1, k = k1 + 1 := ⟨k - 1, by omega⟩
  constructor
  · nlinarith [Nat.zero_le (k1 * (k1 + 1 + 2 + d) * (k1 + 1 + 2 + d)),
      Nat.zero_le (j * (k1 + 1 + 2 + d))]
  · have h1 : j * (k1 + 1 + 2 + d) + i + (k1 + 1 + 2 + d) < (k1 + 1 + 2 + d) * (k1 + 1 + 2 + d) := by
      have : j + 2 ≤ k1 + 1 + 2 + d := by omega
      nlinarith
    nlinarith [Nat.zero_le (d * (k1 + 1 + 2 + d) * (k1 + 1 + 2 + d))]

theorem cell_index_lt (n i j k : Nat) (hi : i < n) (hj : j < n) (hk : k < n) :
    (k * n + j) * n + i < n * n * n := by
  obtain ⟨d, rfl⟩ : ∃ d, n = k + 1 + d := ⟨n - (k + 1), by omega⟩
  have h1 : j * (k + 1 + d) + i < (k + 1 + d) * (k + 1 + d) := by nlinarith
  nlinarith [Nat.zero_le (d * (k + 1 + d) * (k + 1 + d))]

theorem cell_encode_exists (n r : Nat) (hr : r < n * n * n) :
    ∃ i j k, i < n ∧ j < n ∧ k < n ∧ r = (k * n + j) * n + i := by
  have hn : 0 < n := by
    rcases Nat.eq_zero_or_pos n with h | h
    · subst h; simp at hr
    · exact h
  refine ⟨r % n, r / n % n, r / n / n, Nat.mod_lt _ hn, Nat.mod_lt _ hn, ?_, ?_⟩
  · apply Nat.div_lt_of_lt_mul
    apply Nat.div_lt_of_lt_mul
    rw [← Nat.mul_assoc]; exact hr
  · have h1 := Nat.div_add_mod r n
    have h2 := Nat.div_add_mod (r / n) n
    rw [Nat.mul_comm (r / n / n) n, h2, Nat.mul_comm (r / n) n, h1]

theorem interior_cols_exact (n i j k : Nat) (hi : i < n) (hj : j < n) (hk : k < n)
    (hb : is_boundary n i j k = false) (h32 : n * n * n ≤ 2 ^ 32) :
    cell_cols n ((k * n + j) * n + i) false =
      [(k * n + j) * n + i - n * n, (k * n + j) * n + i - n, (k * n + j) * n + i - 1,
       (k * n + j) * n + i, (k * n + j) * n + i + 1, (k * n + j) * n + i + n,
       (k * n + j) * n + i + n * n] := by
  have hn : 1 ≤ n := by omega
  have hnb : ¬ (i = 0 ∨ i = n - 1 ∨ j = 0 ∨ j = n - 1 ∨ k = 0 ∨ k = n - 1) := by
    rw [← is_boundary_iff n i j k hn, hb]; simp
  obtain ⟨h1, h2⟩ := interior_bounds n i j k (by omega) (by omega) (by omega)
  have hnn : n ≤ n * n := Nat.le_mul_of_pos_left n (by omega)
  unfold cell_cols
  simp only [Bool.false_eq_true, if_false]
  rw [size_sub_of_le _ _ h1, size_sub_of_le _ _ (by omega), size_sub_of_le _ _ (by omega)]
  unfold to_uint
  rw [Nat.mod_eq_of_lt (by omega), Nat.mod_eq_of_lt (by omega), Nat.mod_eq_of_lt (by omega),
    Nat.mod_eq_of_lt (by omega), Nat.mod_eq_of_lt (by omega), Nat.mod_eq_of_lt (by omega),
    Nat.mod_eq_of_lt (by omega)]

theorem cell_cols_lt (n i j k : Nat) (hi : i < n) (hj : j < n) (hk : k < n) :
    ∀ c ∈ cell_cols n ((k * n + j) * n + i) (is_boundary n i j k), c < n * n * n := by
  intro c hc
  have hidx := cell_index_lt n i j k hi hj hk
  by_cases h32 : n * n * n ≤ 2 ^ 32
  · cases hb : is_boundary n i j k with
    | true =>
      rw [hb] at hc
      simp only [cell_cols, if_true, List.mem_singleton] at hc
      subst hc
      unfold to_uint
      rw [Nat.mod_eq_of_lt (by omega)]
      exact hidx
    | false =>
      rw [hb, interior_cols_exact n i j k hi hj hk hb h32] at hc
      have hn : 1 ≤ n := by omega
      have hnb : ¬ (i = 0 ∨ i = n - 1 ∨ j = 0 ∨ j = n - 1 ∨ k = 0 ∨ k = n - 1) := by
        rw [← is_boundary_iff n i j k hn, hb]; simp
      obtain ⟨h1, h2⟩ := interior_bounds n i j k (by omega) (by omega) (by omega)
      have hnn : n ≤ n * n := Nat.le_mul_of_pos_left n (by omega)
      simp only [List.mem_cons, List.mem_singleton, List.not_mem_nil, or_false] at hc
      omega
  · have hlt : ∀ x, to_uint x < n * n * n := by
      intro x
      have : x % 2 ^ 32 < 2 ^ 32 := Nat.mod_lt _ (by decide)
      unfold to_uint; omega
    unfold cell_cols at hc
    split at hc
    · simp only [List.mem_singleton] at hc
      subst hc; exact hlt _
    · simp only [List.mem_cons, List.mem_singleton, List.not_mem_nil, or_false] at hc
      rcases hc with h | h | h | h | h | h | h <;> (subst h; exact hlt _)

theorem spmv_cell_eq {R : Type} [CommRing R] (n : Nat) (h2i : R) (k j i : Nat)
    (st : CsrState R) :
    spmv_cell n h2i k j i st =
      { idx := st.idx + 1
        col := st.col ++ cell_cols n st.idx (is_boundary n i j k)
        val := st.val ++ cell_vals h2i (is_boundary n i j k)
        row := st.row ++ [row_back st.row + (cell_cols n st.idx (is_boundary n i j k)).length] } := by
  unfold spmv_cell cell_cols cell_vals
  cases is_boundary n i j k <;> simp

theorem cell_vals_length {R : Type} [CommRing R] (n idx : Nat) (h2i : R) (b : Bool) :
    (cell_vals h2i b).length = (cell_cols n idx b).length := by
  unfold cell_vals cell_cols
  cases b <;> simp

theorem cell_decode (n i j k : Nat) (hi : i < n) (hj : j < n) :
    ((k * n + j) * n + i) % n = i ∧ ((k * n + j) * n + i) / n % n = j ∧
    ((k * n + j) * n + i) / (n * n) = k := by
  have hn : 0 < n := by omega
  have h1 : ((k * n + j) * n + i) % n = i := by
    rw [Nat.mul_add_mod_of_lt hi]
  have h2 : ((k * n + j) * n + i) / n = k * n + j := by
    rw [Nat.mul_comm (k * n + j) n, Nat.mul_add_div hn, Nat.div_eq_of_lt hi, Nat.add_zero]
  have h3 : (k * n + j) % n = j := Nat.mul_add_mod_of_lt hj
  have h4 : (k * n + j) / n = k := by
    rw [Nat.mul_comm k n, Nat.mul_add_div hn, Nat.div_eq_of_lt hj, Nat.add_zero]
  refine ⟨h1, by rw [h2, h3], ?_⟩
  rw [← Nat.div_div_eq_div_mul, h2, h4]

theorem cell_boundary_encode (n i j k : Nat) (hi : i < n) (hj : j < n) :
    cell_boundary n ((k * n + j) * n + i) = is_boundary n i j k := by
  obtain ⟨h1, h2, h3⟩ := cell_decode n i j k hi hj
  unfold cell_boundary
  rw [h1, h2, h3]

theorem row_back_eq (row : List Nat) (m x : Nat) (hlen : row.length = m + 1)
    (h : row[m]? = some x) : row_back row = x := by
  unfold row_back
  rw [List.getLastD_eq_getLast?, List.getLast?_eq_getElem?, hlen, Nat.add_sub_cancel, h]
  rfl

theorem csrInv_init {R : Type} [CommRing R] (n : Nat) (h2i : R) :
    CsrInv n h2i 0 ({ idx := 0, row := [0], col := [], val := [] } : CsrState R) :=
  ⟨rfl, rfl, rfl, rfl, rfl, fun c hc => absurd hc (List.not_mem_nil c),
    fun r hr => absurd hr (Nat.not_lt_zero r)⟩

theorem csrInv_step {R : Type} [CommRing R] (n : Nat) (h2i : R) (m i j k : Nat)
    (st : CsrState R) (hi : i < n) (hj : j < n) (hk : k < n) (hm : m = (k * n + j) * n + i)
    (h : CsrInv n h2i m st) : CsrInv n h2i (m + 1) (spmv_cell n h2i k j i st) := by
  have hcl := cell_cols_lt n i j k hi hj hk
  rw [← hm] at hcl
  have hb : is_boundary n i j k = cell_boundary n m := by
    rw [hm, cell_boundary_encode n i j k hi hj]
  rw [spmv_cell_eq, h.idx_eq, hb, row_back_eq st.row m _ h.row_len h.row_last]
  have hvl := cell_vals_length n m h2i (cell_boundary n m)
  refine ⟨rfl, by simp [h.row_len], ?_, by simp [h.val_len, hvl], ?_, ?_, ?_⟩
  · show (st.row ++ _)[0]? = some 0
    rw [List.getElem?_append_left (by rw [h.row_len]; omega)]
    exact h.row_zero
  · show (st.row ++ _)[m + 1]? = some (st.col ++ _).length
    rw [List.getElem?_append_right (by rw [h.row_len]), h.row_len]
    simp
  · intro c hc
    rcases List.mem_append.1 hc with hc | hc
    · exact h.col_lt c hc
    · rw [← hb] at hc
      exact hcl c hc
  · intro r hr
    by_cases hrm : r < m
    · obtain ⟨off, h1, h2, h3, h4⟩ := h.rows r hrm
      refine ⟨off, ?_, ?_, ?_, ?_⟩
      · show (st.row ++ _)[r]? = some off
        rw [List.getElem?_append_left (by rw [h.row_len]; omega)]
        exact h1
      · show (st.row ++ _)[r + 1]? = _
        rw [List.getElem?_append_left (by rw [h.row_len]; omega)]
        exact h2
      · show _ ≤ (st.col ++ _).length
        rw [List.length_append]; omega
      · intro t ht
        obtain ⟨h5, h6⟩ := h4 t ht
        constructor
        · show (st.col ++ _)[off + t]? = _
          rw [List.getElem?_append_left (by omega)]
          exact h5
        · show (st.val ++ _)[off + t]? = _
          rw [List.getElem?_append_left (by rw [h.val_len]; omega)]
          exact h6
    · have hrm' : r = m := by omega
      subst hrm'
      refine ⟨st.col.length, ?_, ?_, ?_, ?_⟩
      · show (st.row ++ _)[r]? = _
        rw [List.getElem?_append_left (by rw [h.row_len]; omega)]
        exact h.row_last
      · show (st.row ++ _)[r + 1]? = _
        rw [List.getElem?_append_right (by rw [h.row_len]), h.row_len]
        simp
      · show _ ≤ (st.col ++ _).length
        rw [List.length_append]
      · intro t _
        constructor
        · show (st.col ++ _)[st.col.length + t]? = _
          rw [List.getElem?_append_right (by omega)]
          simp
        · show (st.val ++ _)[st.col.length + t]? = _
          rw [List.getElem?_append_right (by rw [h.val_len]; omega), h.val_len]
          simp

theorem foldl_range_inv {σ : Type} (P : Nat → σ → Prop) (f : σ → Nat → σ) :
    ∀ n : Nat, (∀ i st, i < n → P i st → P (i + 1) (f st i)) →
      ∀ st, P 0 st → P n ((List.range n).foldl f st)
  | 0, _, _, h0 => h0
  | n + 1, hstep, st, h0 => by
    rw [List.range_succ, List.foldl_append]
    exact hstep n _ (Nat.lt_succ_self n)
      (foldl_range_inv P f n (fun i st hi => hstep i st (Nat.lt_succ_of_lt hi)) st h0)

theorem csrInv_loop_i {R : Type} [CommRing R] (n k j : Nat) (hj : j < n) (hk : k < n)
    (st : CsrState R)
    (h : CsrInv n (spmv_h2i R n) ((k * n + j) * n) st) :
    CsrInv n (spmv_h2i R n) ((k * n + (j + 1)) * n)
      ((List.range n).foldl (fun st i => spmv_cell n (spmv_h2i R n) k j i st) st) := by
  have e : (k * n + (j + 1)) * n = (k * n + j) * n + n := by ring
  rw [e]
  exact foldl_range_inv (fun i st => CsrInv n (spmv_h2i R n) ((k * n + j) * n + i) st)
    (fun st i => spmv_cell n (spmv_h2i R n) k j i st) n
    (fun i st hi hinv => csrInv_step n (spmv_h2i R n) _ i j k st hi hj hk rfl hinv) st h

theorem csrInv_loop_j {R : Type} [CommRing R] (n k : Nat) (hk : k < n) (st : CsrState R)
    (h : CsrInv n (spmv_h2i R n) (k * n * n) st) :
    CsrInv n (spmv_h2i R n) ((k + 1) * n * n)
      ((List.range n).foldl (fun st j =>
        (List.range n).foldl (fun st i => spmv_cell n (spmv_h2i R n) k j i st) st) st) := by
  have e : (k + 1) * n * n = (k * n + n) * n := by ring
  rw [e]
  exact foldl_range_inv (fun j st => CsrInv n (spmv_h2i R n) ((k * n + j) * n) st)
    (fun st j => (List.range n).foldl (fun st i => spmv_cell n (spmv_h2i R n) k j i st) st) n
    (fun j st hj hinv => csrInv_loop_i n k j hj hk st hinv) st (by simpa using h)

theorem csrInv_build {R : Type} [CommRing R] (n : Nat) :
    CsrInv n (spmv_h2i R n) (n * n * n) (spmv_fill R n) := by
  unfold spmv_fill
  exact foldl_range_inv (fun k st => CsrInv n (spmv_h2i R n) (k * n * n) st)
    (fun st k => (List.range n).foldl (fun st j =>
      (List.range n).foldl (fun st i => spmv_cell n (spmv_h2i R n) k j i st) st) st) n
    (fun k st hk hinv => csrInv_loop_j n k hk st hinv) _
    (by simpa using csrInv_init n (spmv_h2i R n))

theorem build_row {R : Type} [CommRing R] (n i j k : Nat) (hi : i < n) (hj : j < n)
    (hk : k < n) :
    ∃ off, (spmv_fill R n).row[(k * n + j) * n + i]? = some off ∧
      (spmv_fill R n).row[(k * n + j) * n + i + 1]? =
        some (off + (cell_cols n ((k * n + j) * n + i) (is_boundary n i j k)).length) ∧
      ∀ t, t < (cell_cols n ((k * n + j) * n + i) (is_boundary n i j k)).length →
        (spmv_fill R n).col[off + t]? =
          (cell_cols n ((k * n + j) * n + i) (is_boundary n i j k))[t]? ∧
        (spmv_fill R n).val[off + t]? =
          (cell_vals (spmv_h2i R n) (is_boundary n i j k))[t]? := by
  obtain ⟨off, h1, h2, _, h4⟩ :=
    (csrInv_build (R := R) n).rows _ (cell_index_lt n i j k hi hj hk)
  rw [cell_boundary_encode n i j k hi hj] at h2 h4
  exact ⟨off, h1, h2, h4⟩

theorem foldlM_range'_sum {R : Type} [CommRing R] (g : R → Nat → Option R) (f : Nat → R)
    (lo : Nat) :
    ∀ len : Nat, (∀ s t, t < len → g s (lo + t) = some (s + f t)) →
      (List.range' lo len).foldlM g 0 = some (∑ t in Finset.range len, f t)
  | 0, _ => by simp
  | len + 1, h => by
    rw [List.range'_concat, List.foldlM_append,
      foldlM_range'_sum g f lo len (fun s t ht => h s t (Nat.lt_succ_of_lt ht))]
    simp [h _ len (Nat.lt_succ_self len), Finset.sum_range_succ]

theorem spmv_row_eq {R : Type} [CommRing R] (n i j k : Nat) (hi : i < n) (hj : j < n)
    (hk : k < n) (X : List R) (hX : X.length = n * n * n) :
    spmv_row (spmv_fill R n).row (spmv_fill R n).col (spmv_fill R n).val X
        ((k * n + j) * n + i) =
      some (∑ t in Finset.range (cell_cols n ((k * n + j) * n + i) (is_boundary n i j k)).length,
        (cell_vals (spmv_h2i R n) (is_boundary n i j k)).getD t 0 *
          X.getD ((cell_cols n ((k * n + j) * n + i) (is_boundary n i j k)).getD t 0) 0) := by
  obtain ⟨off, h1, h2, h3⟩ := build_row (R := R) n i j k hi hj hk
  unfold spmv_row
  rw [h1, h2]
  simp only [Option.bind_eq_bind, Option.some_bind, Nat.add_sub_cancel_left]
  apply foldlM_range'_sum
  intro s t ht
  obtain ⟨h5, h6⟩ := h3 t ht
  have hvl := cell_vals_length n ((k * n + j) * n + i) (spmv_h2i R n) (is_boundary n i j k)
  have hc : (cell_cols n ((k * n + j) * n + i) (is_boundary n i j k))[t] < X.length := by
    rw [hX]
    exact cell_cols_lt n i j k hi hj hk _ (List.getElem_mem _)
  rw [h5, h6, List.getElem?_eq_getElem ht, List.getElem?_eq_getElem (by omega)]
  simp [List.getElem?_eq_getElem ht, List.getElem?_eq_getElem hc,
    List.getElem?_eq_getElem (show t < (cell_vals (spmv_h2i R n) (is_boundary n i j k)).length by omega)]

theorem spmv_row_const {R : Type} [CommRing R] (n i j k : Nat) (hi : i < n) (hj : j < n)
    (hk : k < n) (c : R) :
    spmv_row (spmv_fill R n).row (spmv_fill R n).col (spmv_fill R n).val
        (List.replicate (n * n * n) c) ((k * n + j) * n + i) =
      some (if is_boundary n i j k then c else 0) := by
  rw [spmv_row_eq n i j k hi hj hk _ (by simp)]
  have hget : ∀ t, t < (cell_cols n ((k * n + j) * n + i) (is_boundary n i j k)).length →
      (List.replicate (n * n * n) c).getD
        ((cell_cols n ((k * n + j) * n + i) (is_boundary n i j k)).getD t 0) 0 = c := by
    intro t ht
    have hc : (cell_cols n ((k * n + j) * n + i) (is_boundary n i j k))[t] < n * n * n :=
      cell_cols_lt n i j k hi hj hk _ (List.getElem_mem _)
    simp [List.getElem?_eq_getElem ht, hc]
  rw [Finset.sum_congr rfl (fun t ht => by rw [hget t (Finset.mem_range.1 ht)])]
  cases is_boundary n i j k
  · simp [cell_cols, cell_vals, Finset.sum_range_succ]
    ring
  · simp [cell_cols, cell_vals]

theorem foldlM_accum_range {R : Type} [CommRing R] (f : Nat → Option R) (v : Nat → R)
    (N : Nat) (hf : ∀ i, i < N → f i = some (v i)) :
    ∀ m : Nat, m ≤ N → ∀ Y : List R, Y.length = N →
      ∃ Y1, (List.range m).foldlM (fun Y (i : Nat) => do
          let s ← f i
          let y ← Y[i]?
          pure (Y.set i (y + s))) Y = some Y1 ∧
        Y1.length = N ∧
        (∀ i, i < m → ∀ y, Y[i]? = some y → Y1[i]? = some (y + v i)) ∧
        (∀ i, m ≤ i → Y1[i]? = Y[i]?)
  | 0, _, Y, hY => ⟨Y, by simp, hY, fun i hi => absurd hi (Nat.not_lt_zero i), fun _ _ => rfl⟩
  | m + 1, hm, Y, hY => by
    obtain ⟨Y1, h1, hlen, hlo, hhi⟩ :=
      foldlM_accum_range f v N hf m (Nat.le_of_succ_le hm) Y hY
    have hmY : m < Y1.length := by omega
    refine ⟨Y1.set m (Y1[m] + v m), ?_, by simp [hlen], ?_, ?_⟩
    · rw [List.range_succ, List.foldlM_append, h1]
      simp [hf m (by omega), List.getElem?_eq_getElem hmY]
    · intro i hi y hy
      by_cases him : i = m
      · subst him
        rw [List.getElem?_set_self hmY]
        have := hhi i (Nat.le_refl i)
        rw [hy, List.getElem?_eq_getElem hmY] at this
        rw [Option.some.inj this]
      · rw [List.getElem?_set_ne (fun h => him h.symm)]
        exact hlo i (by omega) y hy
    · intro i hi
      rw [List.getElem?_set_ne (by omega)]
      exact hhi i (by omega)

theorem spmv_loop_eq {R : Type} [CommRing R] (N : Nat) (row col : List Nat) (val X : List R)
    (v : Nat → R) (hrow : ∀ i, i < N → spmv_row row col val X i = some (v i)) :
    ∀ (M : Nat) (Y : List R), Y.length = N →
      ∃ Y1, spmv_loop N row col val X M Y = some Y1 ∧ Y1.length = N ∧
        ∀ i, i < N → ∀ y, Y[i]? = some y → Y1[i]? = some (y + (M : R) * v i)
  | 0, Y, hY => ⟨Y, rfl, hY, fun i _ y hy => by simp [hy]⟩
  | M + 1, Y, hY => by
    obtain ⟨Y1, h1, hlen, hlo, _⟩ :=
      foldlM_accum_range (spmv_row row col val X) v N hrow N (Nat.le_refl N) Y hY
    obtain ⟨Y2, h2, hlen2, hget2⟩ := spmv_loop_eq N row col val X v hrow M Y1 hlen
    refine ⟨Y2, ?_, hlen2, ?_⟩
    · unfold spmv_loop spmv_pass
      rw [h1]
      exact h2
    · intro i hi y hy
      rw [hget2 i hi _ (hlo i hi y hy)]
      congr 1
      push_cast
      ring

theorem fill_row_pointer (R : Type) [CommRing R] (n : Nat) :
    (spmv_fill R n).row.length = n ^ 3 + 1 ∧
    (spmv_fill R n).row[0]? = some 0 ∧
    (∀ r, r < n ^ 3 → ∃ a, (spmv_fill R n).row[r]? = some a ∧
      ((spmv_fill R n).row[r + 1]? = some (a + 1) ∨
       (spmv_fill R n).row[r + 1]? = some (a + 7))) ∧
    (spmv_fill R n).row.getLast? = some (spmv_fill R n).col.length ∧
    (spmv_fill R n).col.length = (spmv_fill R n).val.length := by
  have h := csrInv_build (R := R) n
  have e : n ^ 3 = n * n * n := by ring
  rw [e]
  refine ⟨h.row_len, h.row_zero, ?_, ?_, h.val_len.symm⟩
  · intro r hr
    obtain ⟨off, h1, h2, _, _⟩ := h.rows r hr
    refine ⟨off, h1, ?_⟩
    rw [h2]
    unfold cell_cols
    cases cell_boundary n r
    · right; rfl
    · left; rfl
  · rw [List.getLast?_eq_getElem?, h.row_len, Nat.add_sub_cancel]
    exact h.row_last

theorem fill_constant_vector {R : Type} [CommRing R] (n M : Nat) (c : R) (i j k : Nat)
    (hn : 1 ≤ n) (hi : i < n) (hj : j < n) (hk : k < n) :
    ((i = 0 ∨ i = n - 1 ∨ j = 0 ∨ j = n - 1 ∨ k = 0 ∨ k = n - 1) →
      spmv_row (spmv_fill R n).row (spmv_fill R n).col (spmv_fill R n).val
        (List.replicate (n * n * n) c) ((k * n + j) * n + i) = some c ∧
      ∃ Y, spmv_loop (n * n * n) (spmv_fill R n).row (spmv_fill R n).col (spmv_fill R n).val
          (List.replicate (n * n * n) c) M (List.replicate (n * n * n) 0) = some Y ∧
        Y.length = n ^ 3 ∧
        Y[(k * n + j) * n + i]? = some ((M : R) * c)) ∧
    (¬ (i = 0 ∨ i = n - 1 ∨ j = 0 ∨ j = n - 1 ∨ k = 0 ∨ k = n - 1) →
      spmv_row (spmv_fill R n).row (spmv_fill R n).col (spmv_fill R n).val
        (List.replicate (n * n * n) c) ((k * n + j) * n + i) = some 0 ∧
      ∃ Y, spmv_loop (n * n * n) (spmv_fill R n).row (spmv_fill R n).col (spmv_fill R n).val
          (List.replicate (n * n * n) c) M (List.replicate (n * n * n) 0) = some Y ∧
        Y.length = n ^ 3 ∧
        Y[(k * n + j) * n + i]? = some 0) := by
  have e : n ^ 3 = n * n * n := by ring
  have hrow : ∀ r, r < n * n * n →
      spmv_row (spmv_fill R n).row (spmv_fill R n).col (spmv_fill R n).val
        (List.replicate (n * n * n) c) r =
      some (if cell_boundary n r then c else 0) := by
    intro r hr
    obtain ⟨i1, j1, k1, hi1, hj1, hk1, rfl⟩ := cell_encode_exists n r hr
    rw [cell_boundary_encode n i1 j1 k1 hi1 hj1]
    exact spmv_row_const n i1 j1 k1 hi1 hj1 hk1 c
  obtain ⟨Y, hY, hlen, hget⟩ := spmv_loop_eq (n * n * n) _ _ _ _ _ hrow M
    (List.replicate (n * n * n) (0 : R)) (by simp)
  have hidx := cell_index_lt n i j k hi hj hk
  have hY0 := hget _ hidx 0 (by simp [hidx])
  rw [cell_boundary_encode n i j k hi hj] at hY0
  have hr := spmv_row_const n i j k hi hj hk c
  rw [e]
  constructor
  · intro hb
    have hb1 := (is_boundary_iff n i j k hn).2 hb
    rw [hb1] at hr hY0
    exact ⟨by simpa using hr, Y, hY, hlen, by simpa using hY0⟩
  · intro hb
    have hb1 : is_boundary n i j k = false := by
      rw [← Bool.not_eq_true, is_boundary_iff n i j k hn]; exact hb
    rw [hb1] at hr hY0
    exact ⟨by simpa using hr, Y, hY, hlen, by simpa using hY0⟩

theorem fill_columns_in_range (R : Type) [CommRing R] (n : Nat) (hn : 1 ≤ n)
    (h32 : n ^ 3 ≤ 2 ^ 32) :
    (∀ c ∈ (spmv_fill R n).col, c < n ^ 3) ∧
    (∀ i j k, i < n → j < n → k < n → is_boundary n i j k = false →
      (n * n ≤ (k * n + j) * n + i ∧ (k * n + j) * n + i + n * n < n ^ 3) ∧
      (size_sub ((k * n + j) * n + i) (n * n) = (k * n + j) * n + i - n * n ∧
       size_sub ((k * n + j) * n + i) n = (k * n + j) * n + i - n ∧
       size_sub ((k * n + j) * n + i) 1 = (k * n + j) * n + i - 1) ∧
      (∀ v ∈ [(k * n + j) * n + i - n * n, (k * n + j) * n + i - n, (k * n + j) * n + i - 1,
          (k * n + j) * n + i, (k * n + j) * n + i + 1, (k * n + j) * n + i + n,
          (k * n + j) * n + i + n * n], to_uint v = v) ∧
      ∃ off, (spmv_fill R n).row[(k * n + j) * n + i]? = some off ∧
        (spmv_fill R n).col[off]? = some ((k * n + j) * n + i - n * n) ∧
        (spmv_fill R n).col[off + 1]? = some ((k * n + j) * n + i - n) ∧
        (spmv_fill R n).col[off + 2]? = some ((k * n + j) * n + i - 1) ∧
        (spmv_fill R n).col[off + 3]? = some ((k * n + j) * n + i) ∧
        (spmv_fill R n).col[off + 4]? = some ((k * n + j) * n + i + 1) ∧
        (spmv_fill R n).col[off + 5]? = some ((k * n + j) * n + i + n) ∧
        (spmv_fill R n).col[off + 6]? = some ((k * n + j) * n + i + n * n)) ∧
    (∀ i j k, i < n → j < n → k < n → is_boundary n i j k = true →
      to_uint ((k * n + j) * n + i) = (k * n + j) * n + i ∧
      ∃ off, (spmv_fill R n).row[(k * n + j) * n + i]? = some off ∧
        (spmv_fill R n).col[off]? = some ((k * n + j) * n + i)) ∧
    (∀ X : List R, X.length = n ^ 3 → ∀ r, r < n ^ 3 →
      ∃ s, spmv_row (spmv_fill R n).row (spmv_fill R n).col (spmv_fill R n).val X r
        = some s) := by
  have e : n ^ 3 = n * n * n := by ring
  rw [e] at h32 ⊢
  refine ⟨(csrInv_build (R := R) n).col_lt, ?_, ?_, ?_⟩
  · intro i j k hi hj hk hb
    have hnb : ¬ (i = 0 ∨ i = n - 1 ∨ j = 0 ∨ j = n - 1 ∨ k = 0 ∨ k = n - 1) := by
      rw [← is_boundary_iff n i j k hn, hb]; simp
    obtain ⟨h1, h2⟩ := interior_bounds n i j k (by omega) (by omega) (by omega)
    have hnn : n ≤ n * n := Nat.le_mul_of_pos_left n (by omega)
    refine ⟨⟨h1, h2⟩, ⟨size_sub_of_le _ _ h1, size_sub_of_le _ _ (by omega),
      size_sub_of_le _ _ (by omega)⟩, ?_, ?_⟩
    · intro v hv
      simp only [List.mem_cons, List.mem_singleton, List.not_mem_nil, or_false] at hv
      unfold to_uint
      exact Nat.mod_eq_of_lt (by omega)
    · obtain ⟨off, h3, _, h5⟩ := build_row (R := R) n i j k hi hj hk
      rw [hb, interior_cols_exact n i j k hi hj hk hb h32] at h5
      refine ⟨off, h3, ?_, ?_, ?_, ?_, ?_, ?_, ?_⟩
      · simpa using (h5 0 (by simp)).1
      · simpa using (h5 1 (by simp)).1
      · simpa using (h5 2 (by simp)).1
      · simpa using (h5 3 (by simp)).1
      · simpa using (h5 4 (by simp)).1
      · simpa using (h5 5 (by simp)).1
      · simpa using (h5 6 (by simp)).1
  · intro i j k hi hj hk hb
    have hidx := cell_index_lt n i j k hi hj hk
    have hu : to_uint ((k * n + j) * n + i) = (k * n + j) * n + i := by
      unfold to_uint
      exact Nat.mod_eq_of_lt (by omega)
    obtain ⟨off, h3, _, h5⟩ := build_row (R := R) n i j k hi hj hk
    rw [hb] at h5
    refine ⟨hu, off, h3, ?_⟩
    have := (h5 0 (by simp [cell_cols])).1
    simpa [cell_cols, hu] using this
  · intro X hX r hr
    obtain ⟨i, j, k, hi, hj, hk, rfl⟩ := cell_encode_exists n r hr
    exact ⟨_, spmv_row_eq n i j k hi hj hk X hX⟩

/-! ### Arguments of the compact sparse-matrix constructor -/

theorem ccsrInv_step (n m i j k : Nat) (idx : List Nat) (hi : i < n) (hj : j < n)
    (hm : m = (k * n + j) * n + i) (h : CcsrInv n m idx) :
    CcsrInv n (m + 1) (ccsr_cell n k j i idx) := by
  obtain ⟨hlen, hget⟩ := h
  have hb : ccsr_is_boundary n i j k = ccsr_cell_boundary n m := by
    obtain ⟨h1, h2, h3⟩ := cell_decode n i j k hi hj
    unfold ccsr_cell_boundary
    rw [hm, h1, h2, h3]
  have hcell : ccsr_cell n k j i idx = idx ++ [if ccsr_cell_boundary n m then 0 else 1] := by
    unfold ccsr_cell
    rw [hb]
    cases ccsr_cell_boundary n m <;> simp
  rw [hcell]
  refine ⟨by simp [hlen], ?_⟩
  intro r hr
  by_cases hrm : r < m
  · rw [List.getElem?_append_left (by omega)]
    exact hget r hrm
  · have hrm' : r = m := by omega
    subst hrm'
    rw [List.getElem?_append_right (by omega), hlen]
    simp

theorem ccsrInv_build (R : Type) [CommRing R] (n : Nat) :
    CcsrInv n (n * n * n) (ccsr_build R n).idx := by
  show CcsrInv n (n * n * n) ((List.range n).foldl (fun idx k =>
      (List.range n).foldl (fun idx j =>
        (List.range n).foldl (fun idx i => ccsr_cell n k j i idx) idx) idx) [])
  refine foldl_range_inv (fun k idx => CcsrInv n (k * n * n) idx)
    (fun idx k => (List.range n).foldl (fun idx j =>
        (List.range n).foldl (fun idx i => ccsr_cell n k j i idx) idx) idx) n ?_ []
    ⟨by simp, fun r hr => absurd hr (by simp)⟩
  intro k idx _ hk
  have e : (k + 1) * n * n = (k * n + n) * n := by ring
  rw [e]
  refine foldl_range_inv (fun j idx => CcsrInv n ((k * n + j) * n) idx)
    (fun idx j => (List.range n).foldl (fun idx i => ccsr_cell n k j i idx) idx) n ?_ idx
    (by simpa using hk)
  intro j idx hj hjinv
  have e : (k * n + (j + 1)) * n = (k * n + j) * n + n := by ring
  rw [e]
  exact foldl_range_inv (fun i idx => CcsrInv n ((k * n + j) * n + i) idx)
    (fun idx i => ccsr_cell n k j i idx) n
    (fun i idx hi hinv => ccsrInv_step n _ i j k idx hi hj rfl hinv) idx hjinv

theorem uint_sub_of_le (a b : Nat) (h : b ≤ a) : uint_sub a b = a - b := by
  unfold uint_sub; rw [if_pos h]

theorem ccsr_is_boundary_iff (n i j k : Nat) (hn : 1 ≤ n) :
    ccsr_is_boundary n i j k = true ↔
      (i = 0 ∨ i = n - 1 ∨ j = 0 ∨ j = n - 1 ∨ k = 0 ∨ k = n - 1) := by
  unfold ccsr_is_boundary
  rw [uint_sub_of_le n 1 hn]
  simp only [Bool.or_eq_true, beq_iff_eq]
  tauto

/-- C10: for every grid size `n ≥ 1` the arguments `benchmark_spmv_ccsr`
passes to the compact sparse-matrix constructor pass its construction-time
validation: the pattern count is `K = 2 ≥ 1`; the per-row pattern-index array
has exactly `n^3` entries, each `< K`, `0` on the row of a boundary cell and
`1` on the row of an interior cell; the pattern row pointers are `[0, 1, 8]`,
non-decreasing, with `K + 1` entries and last entry `8`, the length of the
column-offset and value arrays. -/
theorem ccsr_arguments_valid (R : Type) [CommRing R] (n : Nat) (hn : 1 ≤ n) :
    (ccsr_pattern_count = 2 ∧ 1 ≤ ccsr_pattern_count) ∧
    ((ccsr_build R n).idx.length = n ^ 3 ∧
     (∀ x ∈ (ccsr_build R n).idx, x < ccsr_pattern_count) ∧
     (∀ i j k, i < n → j < n → k < n →
       (ccsr_build R n).idx[(k * n + j) * n + i]? =
         some (if i = 0 ∨ i = n - 1 ∨ j = 0 ∨ j = n - 1 ∨ k = 0 ∨ k = n - 1 then 0 else 1))) ∧
    ((ccsr_build R n).row = [0, 1, 8] ∧
     (ccsr_build R n).row.Pairwise (fun a b => a ≤ b) ∧
     (ccsr_build R n).row.length = ccsr_pattern_count + 1 ∧
     (ccsr_build R n).row.getLast? = some 8 ∧
     (ccsr_build R n).col.length = 8 ∧ (ccsr_build R n).val.length = 8) ∧
    ccsr_validate (ccsr_rows n) ccsr_pattern_count (ccsr_build R n).idx = .ok () := by
  obtain ⟨hlen, hget⟩ := ccsrInv_build R n
  have e : n ^ 3 = n * n * n := by ring
  have hmem : ∀ x ∈ (ccsr_build R n).idx, x < ccsr_pattern_count := by
    intro x hx
    obtain ⟨r, hr, rfl⟩ := List.getElem_of_mem hx
    have h := hget r (by omega)
    rw [List.getElem?_eq_getElem hr] at h
    rw [Option.some.inj h]
    unfold ccsr_pattern_count
    split <;> decide
  refine ⟨⟨rfl, by decide⟩, ⟨by rw [e]; exact hlen, hmem, ?_⟩,
    ⟨rfl, by simp [ccsr_build], rfl, rfl, rfl, rfl⟩, ?_⟩
  · intro i j k hi hj hk
    rw [hget _ (cell_index_lt n i j k hi hj hk)]
    obtain ⟨h1, h2, h3⟩ := cell_decode n i j k hi hj
    unfold ccsr_cell_boundary
    rw [h1, h2, h3]
    by_cases hb : (i = 0 ∨ i = n - 1 ∨ j = 0 ∨ j = n - 1 ∨ k = 0 ∨ k = n - 1)
    · rw [if_pos hb, (ccsr_is_boundary_iff n i j k hn).2 hb]; rfl
    · rw [if_neg hb]
      have : ccsr_is_boundary n i j k = false := by
        rw [← Bool.not_eq_true, ccsr_is_boundary_iff n i j k hn]; exact hb
      rw [this]; rfl
  · unfold ccsr_validate
    rw [if_pos]
    refine ⟨by decide, ?_⟩
    intro r _
    by_cases hr : r < (ccsr_build R n).idx.length
    · rw [List.getD_eq_getElem?_getD, List.getElem?_eq_getElem hr]
      exact hmem _ (List.getElem_mem _)
    · rw [List.getD_eq_getElem?_getD, List.getElem?_eq_none (by omega)]
      decide

theorem ccsr_arguments_valid_witness :
    1 ≤ 3 ∧
    ((ccsr_pattern_count = 2 ∧ 1 ≤ ccsr_pattern_count) ∧
     ((ccsr_build Int 3).idx.length = 3 ^ 3 ∧
      (∀ x ∈ (ccsr_build Int 3).idx, x < ccsr_pattern_count) ∧
      (∀ i j k, i < 3 → j < 3 → k < 3 →
        (ccsr_build Int 3).idx[(k * 3 + j) * 3 + i]? =
          some (if i = 0 ∨ i = 3 - 1 ∨ j = 0 ∨ j = 3 - 1 ∨ k = 0 ∨ k = 3 - 1 then 0 else 1))) ∧
     ((ccsr_build Int 3).row = [0, 1, 8] ∧
      (ccsr_build Int 3).row.Pairwise (fun a b => a ≤ b) ∧
      (ccsr_build Int 3).row.length = ccsr_pattern_count + 1 ∧
      (ccsr_build Int 3).row.getLast? = some 8 ∧
      (ccsr_build Int 3).col.length = 8 ∧ (ccsr_build Int 3).val.length = 8) ∧
     ccsr_validate (ccsr_rows 3) ccsr_pattern_count (ccsr_build Int 3).idx = .ok ()) :=
  ⟨by decide, ccsr_arguments_valid Int 3 (by decide)⟩

/-! ### SAXPY reference loop -/

theorem saxpy_pass_eq {R : Type} [CommRing R] (N : Nat) (alpha : R) (B : List R)
    (hB : B.length = N) :
    ∀ m : Nat, m ≤ N → ∀ A : List R, A.length = N →
      ∃ A1, (List.range m).foldlM (fun A (j : Nat) => do
          let a ← A[j]?
          let b ← B[j]?
          pure (A.set j (alpha * a + b))) A = some A1 ∧
        A1.length = N ∧
        (∀ j, j < m → ∀ a b, A[j]? = some a → B[j]? = some b →
          A1[j]? = some (alpha * a + b)) ∧
        (∀ j, m ≤ j → A1[j]? = A[j]?)
  | 0, _, A, hA => ⟨A, by simp, hA, fun j hj => absurd hj (Nat.not_lt_zero j), fun _ _ => rfl⟩
  | m + 1, hm, A, hA => by
    obtain ⟨A1, h1, hlen, hlo, hhi⟩ := saxpy_pass_eq N alpha B hB m (Nat.le_of_succ_le hm) A hA
    have hmA : m < A1.length := by omega
    have hmB : m < B.length := by omega
    refine ⟨A1.set m (alpha * A1[m] + B[m]), ?_, by simp [hlen], ?_, ?_⟩
    · rw [List.range_succ, List.foldlM_append, h1]
      simp [List.getElem?_eq_getElem hmA, List.getElem?_eq_getElem hmB]
    · intro j hj a b ha hb
      by_cases hjm : j = m
      · subst hjm
        rw [List.getElem?_set_self hmA]
        have h2 := hhi j (Nat.le_refl j)
        rw [ha, List.getElem?_eq_getElem hmA] at h2
        rw [List.getElem?_eq_getElem hmB] at hb
        rw [Option.some.inj h2, Option.some.inj hb]
      · rw [List.getElem?_set_ne (fun h => hjm h.symm)]
        exact hlo j (by omega) a b ha hb
    · intro j hj
      rw [List.getElem?_set_ne (by omega)]
      exact hhi j (by omega)

theorem saxpy_loop_eq {R : Type} [CommRing R] (N : Nat) (alpha : R) (B : List R)
    (hB : B.length = N) :
    ∀ (M : Nat) (A : List R), A.length = N →
      ∃ A1, saxpy_loop N alpha B M A = some A1 ∧ A1.length = N ∧
        ∀ j, j < N → ∀ a b, A[j]? = some a → B[j]? = some b →
          A1[j]? = some (alpha ^ M * a + b * ∑ t in Finset.range M, alpha ^ t)
  | 0, A, hA => ⟨A, rfl, hA, fun j _ a b ha _ => by simp [ha]⟩
  | M + 1, A, hA => by
    obtain ⟨A1, h1, hlen, hlo, _⟩ := saxpy_pass_eq N alpha B hB N (Nat.le_refl N) A hA
    obtain ⟨A2, h2, hlen2, hget2⟩ := saxpy_loop_eq N alpha B hB M A1 hlen
    refine ⟨A2, ?_, hlen2, ?_⟩
    · unfold saxpy_loop saxpy_pass
      rw [h1]
      exact h2
    · intro j hj a b ha hb
      rw [hget2 j hj _ b (hlo j hj a b ha hb) hb]
      congr 1
      rw [Finset.sum_range_succ, pow_succ]
      ring

theorem geom_sum_two {R : Type} [CommRing R] (M : Nat) :
    ∑ t in Finset.range M, (2 : R) ^ t = 2 ^ M - 1 := by
  induction M with
  | zero => simp
  | succ M ih => rw [Finset.sum_range_succ, ih, pow_succ]; ring

/-- C11: in the host loop of the SAXPY scenario, for every `alpha`, every `B`,
every repetition count `M` and every position `j`, after `M` repetitions of
`A[j] = alpha*A[j] + B[j]` starting from `A[j] = 0` the value is
`A[j] = B[j] * (alpha^0 + alpha^1 + ... + alpha^(M-1))` in exact arithmetic; for
`alpha = 2` this is `(2^M - 1) * B[j]`. -/
theorem saxpy_host_closed_form {R : Type} [CommRing R] (M : Nat) (alpha : R) (B : List R)
    (j : Nat) (hj : j < B.length) :
    (∃ A, saxpy_host M alpha B = some A ∧ A.length = B.length ∧
      A[j]? = some (B[j] * ∑ t in Finset.range M, alpha ^ t)) ∧
    (∃ A, saxpy_host M 2 B = some A ∧ A.length = B.length ∧
      A[j]? = some ((2 ^ M - 1) * B[j])) := by
  have key : ∀ al : R, ∃ A, saxpy_host M al B = some A ∧ A.length = B.length ∧
      A[j]? = some (B[j] * ∑ t in Finset.range M, al ^ t) := by
    intro al
    obtain ⟨A, h, hlen, hget⟩ :=
      saxpy_loop_eq B.length al B rfl M (List.replicate B.length 0) (by simp)
    refine ⟨A, h, hlen, ?_⟩
    rw [hget j hj 0 B[j] (by simp [hj]) (List.getElem?_eq_getElem hj)]
    simp
  refine ⟨key alpha, ?_⟩
  obtain ⟨A, h, hlen, hget⟩ := key 2
  refine ⟨A, h, hlen, ?_⟩
  rw [hget, geom_sum_two, mul_comm]

theorem saxpy_host_closed_form_witness :
    1 < ([1, 5, -2] : List Int).length ∧
    ((∃ A, saxpy_host 4 (3 : Int) [1, 5, -2] = some A ∧
        A.length = ([1, 5, -2] : List Int).length ∧
        A[1]? = some (([1, 5, -2] : List Int)[1] * ∑ t in Finset.range 4, (3 : Int) ^ t)) ∧
     (∃ A, saxpy_host 4 (2 : Int) [1, 5, -2] = some A ∧
        A.length = ([1, 5, -2] : List Int).length ∧
        A[1]? = some ((2 ^ 4 - 1) * ([1, 5, -2] : List Int)[1]))) :=
  ⟨by decide, saxpy_host_closed_form 4 (3 : Int) [1, 5, -2] 1 (by decide)⟩

/-! ### Number of stored entries -/

theorem size_sub_two (n : Nat) (hn : 2 ≤ n) : size_sub n 2 = n - 2 :=
  size_sub_of_le n 2 hn

theorem spmv_reserve_eq (n : Nat) (hn : 2 ≤ n) : spmv_reserve n = 6 * (n - 2) ^ 3 + n ^ 3 := by
  unfold spmv_reserve
  rw [size_sub_two n hn]
  ring

theorem foldlM_range'_collect {β : Type} (g : List β → Nat → Option (List β)) (f : Nat → β)
    (lo : Nat) :
    ∀ len : Nat, (∀ acc t, t < len → g acc (lo + t) = some (acc ++ [f t])) →
      (List.range' lo len).foldlM g [] = some ((List.range len).map f)
  | 0, _ => by simp
  | len + 1, h => by
    rw [List.range'_concat, List.foldlM_append,
      foldlM_range'_collect g f lo len (fun acc t ht => h acc t (Nat.lt_succ_of_lt ht))]
    simp [h _ len (Nat.lt_succ_self len), List.range_succ]

theorem csr_row_entries_eq {R : Type} [CommRing R] (n i j k : Nat) (hi : i < n) (hj : j < n)
    (hk : k < n) :
    csr_row_entries (spmv_fill R n).row (spmv_fill R n).col (spmv_fill R n).val
        ((k * n + j) * n + i) =
      some ((List.range (cell_cols n ((k * n + j) * n + i) (is_boundary n i j k)).length).map
        (fun t => ((cell_cols n ((k * n + j) * n + i) (is_boundary n i j k)).getD t 0,
          (cell_vals (spmv_h2i R n) (is_boundary n i j k)).getD t 0))) := by
  obtain ⟨off, h1, h2, h3⟩ := build_row (R := R) n i j k hi hj hk
  unfold csr_row_entries
  rw [h1, h2]
  simp only [Option.bind_eq_bind, Option.some_bind, Nat.add_sub_cancel_left]
  apply foldlM_range'_collect
  intro acc t ht
  obtain ⟨h5, h6⟩ := h3 t ht
  have hvl := cell_vals_length n ((k * n + j) * n + i) (spmv_h2i R n) (is_boundary n i j k)
  rw [h5, h6, List.getElem?_eq_getElem ht, List.getElem?_eq_getElem (by omega)]
  simp [List.getElem?_eq_getElem ht,
    List.getElem?_eq_getElem (show t < (cell_vals (spmv_h2i R n) (is_boundary n i j k)).length by omega)]

theorem ccsr_build_lengths (R : Type) [CommRing R] (n : Nat) :
    (ccsr_build R n).col.length = 8 ∧ (ccsr_build R n).val.length = 8 ∧
    (ccsr_build R n).row = [0, 1, 8] := ⟨rfl, rfl, rfl⟩

theorem ccsr_row_entries_eq {R : Type} [CommRing R] (n r : Nat) (hr : r < n * n * n) :
    ccsr_row_entries (ccsr_build R n).idx (ccsr_build R n).row (ccsr_build R n).col
        (ccsr_build R n).val r =
      some ((List.range (if ccsr_cell_boundary n r then 1 else 7)).map
        (fun t => (size_add_int r
            ((ccsr_build R n).col.getD ((if ccsr_cell_boundary n r then 0 else 1) + t) 0),
          (ccsr_build R n).val.getD ((if ccsr_cell_boundary n r then 0 else 1) + t) 0))) := by
  obtain ⟨_, hget⟩ := ccsrInv_build R n
  obtain ⟨hcl, hvl, hrow⟩ := ccsr_build_lengths R n
  unfold ccsr_row_entries
  rw [hget r hr, hrow]
  cases ccsr_cell_boundary n r
  · simp only [Bool.false_eq_true, if_false, Option.bind_eq_bind, Option.some_bind]
    have e1 : ([0, 1, 8] : List Nat)[1]? = some 1 := rfl
    have e2 : ([0, 1, 8] : List Nat)[1 + 1]? = some 8 := rfl
    rw [e1, e2]
    simp only [Option.some_bind]
    apply foldlM_range'_collect
    intro acc t ht
    have ht1 : 1 + t < (ccsr_build R n).col.length := by omega
    have ht2 : 1 + t < (ccsr_build R n).val.length := by omega
    simp [List.getElem?_eq_getElem ht1, List.getElem?_eq_getElem ht2]
  · simp only [if_true, Option.bind_eq_bind, Option.some_bind]
    have e1 : ([0, 1, 8] : List Nat)[0]? = some 0 := rfl
    have e2 : ([0, 1, 8] : List Nat)[0 + 1]? = some 1 := rfl
    rw [e1, e2]
    simp only [Option.some_bind]
    apply foldlM_range'_collect
    intro acc t ht
    have ht1 : t < (ccsr_build R n).col.length := by omega
    have ht2 : t < (ccsr_build R n).val.length := by omega
    simp [List.getElem?_eq_getElem ht1, List.getElem?_eq_getElem ht2]

theorem grid_le_of_cube_le (n : Nat) (h32 : n * n * n ≤ 2 ^ 32) : n ≤ 1625 := by
  by_contra hcon
  have h1 : 1626 ≤ n := by omega
  have h2 : 1626 * 1626 ≤ n * n := Nat.mul_le_mul h1 h1
  have h3 : 1626 * 1626 * 1626 ≤ n * n * n := Nat.mul_le_mul h2 h1
  omega

theorem ccsr_is_boundary_eq (n i j k : Nat) (hn : 1 ≤ n) :
    ccsr_is_boundary n i j k = is_boundary n i j k := by
  unfold ccsr_is_boundary is_boundary
  rw [uint_sub_of_le n 1 hn, size_sub_of_le n 1 hn]

theorem ccsr_build_exact (R : Type) [CommRing R] (n : Nat) (hn : 1 ≤ n) (hle : n ≤ 1625) :
    (ccsr_build R n).col =
      [0, -((n * n : Nat) : Int), -(n : Int), -1, 0, 1, (n : Int), ((n * n : Nat) : Int)] ∧
    (ccsr_build R n).val =
      [1, -spmv_h2i R n, -spmv_h2i R n, -spmv_h2i R n, spmv_h2i R n * 6,
       -spmv_h2i R n, -spmv_h2i R n, -spmv_h2i R n] := by
  have hnn : n * n ≤ 1625 * 1625 := Nat.mul_le_mul hle hle
  have hmm : (n - 1) * (n - 1) ≤ 1625 * 1625 :=
    Nat.mul_le_mul (by omega) (by omega)
  have hu : uint_mul n n = n * n := by
    unfold uint_mul; exact Nat.mod_eq_of_lt (by omega)
  have hi1 : int_of_bits (n * n) = ((n * n : Nat) : Int) := by
    unfold int_of_bits; rw [if_pos (by omega)]
  have hi2 : int_of_bits n = (n : Int) := by
    unfold int_of_bits; rw [if_pos (by omega)]
  have hh : ccsr_h2i R n = spmv_h2i R n := by
    unfold ccsr_h2i spmv_h2i uint_mul
    rw [uint_sub_of_le n 1 hn, size_sub_of_le n 1 hn, Nat.mod_eq_of_lt (by omega)]
  constructor
  · show [0, -int_of_bits (uint_mul n n), -int_of_bits n, -1, 0, 1,
      int_of_bits n, int_of_bits (uint_mul n n)] = _
    rw [hu, hi1, hi2]
  · show [1, -ccsr_h2i R n, -ccsr_h2i R n, -ccsr_h2i R n, ccsr_h2i R n * 6,
      -ccsr_h2i R n, -ccsr_h2i R n, -ccsr_h2i R n] = _
    rw [hh]

theorem size_add_int_exact (r q m : Nat) (hq : q ≤ r) (hm : m ≤ r) (h1 : 1 ≤ r)
    (hr : r + q < 2 ^ 32) (hmq : m ≤ q) :
    size_add_int r (-(q : Int)) = r - q ∧ size_add_int r (-(m : Int)) = r - m ∧
    size_add_int r (-1) = r - 1 ∧ size_add_int r 0 = r ∧ size_add_int r 1 = r + 1 ∧
    size_add_int r m = r + m ∧ size_add_int r q = r + q := by
  unfold size_add_int
  refine ⟨?_, ?_, ?_, ?_, ?_, ?_, ?_⟩ <;> omega

theorem ccsr_entry_exact {R : Type} [CommRing R] (n i j k : Nat) (hi : i < n) (hj : j < n)
    (hk : k < n) (hn : 1 ≤ n) (h32 : n * n * n ≤ 2 ^ 32) (t : Nat)
    (ht : t < (cell_cols n ((k * n + j) * n + i) (is_boundary n i j k)).length) :
    (ccsr_build R n).val[(if is_boundary n i j k then 0 else 1) + t]? =
      some ((cell_vals (spmv_h2i R n) (is_boundary n i j k)).getD t 0) ∧
    ∃ c, (ccsr_build R n).col[(if is_boundary n i j k then 0 else 1) + t]? = some c ∧
      size_add_int ((k * n + j) * n + i) c =
        (cell_cols n ((k * n + j) * n + i) (is_boundary n i j k)).getD t 0 := by
  have hle := grid_le_of_cube_le n h32
  obtain ⟨hcol, hval⟩ := ccsr_build_exact R n hn hle
  have hidx := cell_index_lt n i j k hi hj hk
  cases hb : is_boundary n i j k with
  | true =>
    rw [hb] at ht
    have ht0 : t = 0 := by
      simp only [cell_cols, if_true, List.length_singleton] at ht; omega
    subst ht0
    rw [hcol, hval]
    refine ⟨by simp [cell_vals], 0, by simp, ?_⟩
    have hu : to_uint ((k * n + j) * n + i) = (k * n + j) * n + i := by
      unfold to_uint; exact Nat.mod_eq_of_lt (by omega)
    have hs : size_add_int ((k * n + j) * n + i) 0 = (k * n + j) * n + i := by
      unfold size_add_int; omega
    simp [cell_cols, hu, hs]
  | false =>
    rw [hb] at ht
    have hnb : ¬ (i = 0 ∨ i = n - 1 ∨ j = 0 ∨ j = n - 1 ∨ k = 0 ∨ k = n - 1) := by
      rw [← is_boundary_iff n i j k hn, hb]; simp
    obtain ⟨h1, h2⟩ := interior_bounds n i j k (by omega) (by omega) (by omega)
    have hnn : n ≤ n * n := Nat.le_mul_of_pos_left n (by omega)
    obtain ⟨e0, e1, e2, e3, e4, e5, e6⟩ :=
      size_add_int_exact ((k * n + j) * n + i) (n * n) n h1 (by omega) (by omega)
        (by omega) hnn
    rw [interior_cols_exact n i j k hi hj hk hb h32] at ht ⊢
    have ht7 : t < 7 := by simpa using ht
    rw [hcol, hval]
    simp only [Bool.false_eq_true, if_false]
    interval_cases t
    · exact ⟨by simp [cell_vals], _, rfl, by simpa using e0⟩
    · exact ⟨by simp [cell_vals], _, rfl, by simpa using e1⟩
    · exact ⟨by simp [cell_vals], _, rfl, by simpa using e2⟩
    · exact ⟨by simp [cell_vals, mul_comm], _, rfl, by simpa using e3⟩
    · exact ⟨by simp [cell_vals], _, rfl, by simpa using e4⟩
    · exact ⟨by simp [cell_vals], _, rfl, by simpa using e5⟩
    · exact ⟨by simp [cell_vals], _, rfl, by simpa using e6⟩

theorem ccsr_cell_boundary_encode (n i j k : Nat) (hi : i < n) (hj : j < n) (hn : 1 ≤ n) :
    ccsr_cell_boundary n ((k * n + j) * n + i) = is_boundary n i j k := by
  obtain ⟨h1, h2, h3⟩ := cell_decode n i j k hi hj
  unfold ccsr_cell_boundary
  rw [h1, h2, h3, ccsr_is_boundary_eq n i j k hn]

theorem ccsr_idx_encode (R : Type) [CommRing R] (n i j k : Nat) (hi : i < n) (hj : j < n)
    (hk : k < n) (hn : 1 ≤ n) :
    (ccsr_build R n).idx[(k * n + j) * n + i]? = some (if is_boundary n i j k then 0 else 1) := by
  obtain ⟨_, hget⟩ := ccsrInv_build R n
  rw [hget _ (cell_index_lt n i j k hi hj hk), ccsr_cell_boundary_encode n i j k hi hj hn]

theorem cell_cols_length (n idx : Nat) (b : Bool) :
    (cell_cols n idx b).length = if b then 1 else 7 := by
  unfold cell_cols
  cases b <;> rfl

theorem row_entries_agree {R : Type} [CommRing R] (n i j k : Nat) (hi : i < n) (hj : j < n)
    (hk : k < n) (hn : 1 ≤ n) (h32 : n * n * n ≤ 2 ^ 32) :
    ∃ es, ccsr_row_entries (ccsr_build R n).idx (ccsr_build R n).row (ccsr_build R n).col
          (ccsr_build R n).val ((k * n + j) * n + i) = some es ∧
      csr_row_entries (spmv_fill R n).row (spmv_fill R n).col (spmv_fill R n).val
          ((k * n + j) * n + i) = some es ∧
      ∀ e ∈ es, e.1 < n * n * n := by
  refine ⟨_, ?_, csr_row_entries_eq n i j k hi hj hk, ?_⟩
  · rw [ccsr_row_entries_eq n _ (cell_index_lt n i j k hi hj hk),
      ccsr_cell_boundary_encode n i j k hi hj hn, cell_cols_length]
    congr 1
    apply List.map_congr_left
    intro t ht
    have ht1 : t < (cell_cols n ((k * n + j) * n + i) (is_boundary n i j k)).length := by
      rw [cell_cols_length]; exact List.mem_range.1 ht
    obtain ⟨hv, c, hc, hs⟩ := ccsr_entry_exact (R := R) n i j k hi hj hk hn h32 t ht1
    rw [List.getD_eq_getElem?_getD, List.getD_eq_getElem?_getD, hc, hv]
    simp only [Option.getD_some]
    rw [hs]
  · intro e he
    obtain ⟨t, ht, rfl⟩ := List.mem_map.1 he
    have ht1 := List.mem_range.1 ht
    rw [List.getD_eq_getElem?_getD, List.getElem?_eq_getElem ht1]
    exact cell_cols_lt n i j k hi hj hk _ (List.getElem_mem _)

theorem ccsr_row_eq_spmv_row {R : Type} [CommRing R] (n i j k : Nat) (hi : i < n)
    (hj : j < n) (hk : k < n) (hn : 1 ≤ n) (h32 : n * n * n ≤ 2 ^ 32) (X : List R)
    (hX : X.length = n * n * n) :
    ccsr_row (ccsr_build R n).idx (ccsr_build R n).row (ccsr_build R n).col
        (ccsr_build R n).val X ((k * n + j) * n + i) =
      spmv_row (spmv_fill R n).row (spmv_fill R n).col (spmv_fill R n).val X
        ((k * n + j) * n + i) := by
  rw [spmv_row_eq n i j k hi hj hk X hX]
  have hterm : ∀ s t, t < (cell_cols n ((k * n + j) * n + i) (is_boundary n i j k)).length →
      (do
        let v ← (ccsr_build R n).val[(if is_boundary n i j k then 0 else 1) + t]?
        let c ← (ccsr_build R n).col[(if is_boundary n i j k then 0 else 1) + t]?
        let x ← X[size_add_int ((k * n + j) * n + i) c]?
        pure (s + v * x)) =
      some (s + (cell_vals (spmv_h2i R n) (is_boundary n i j k)).getD t 0 *
        X.getD ((cell_cols n ((k * n + j) * n + i) (is_boundary n i j k)).getD t 0) 0) := by
    intro s t ht
    obtain ⟨hv, c, hc, hs⟩ := ccsr_entry_exact (R := R) n i j k hi hj hk hn h32 t ht
    have hlt : (cell_cols n ((k * n + j) * n + i) (is_boundary n i j k)).getD t 0 < X.length := by
      rw [hX, List.getD_eq_getElem?_getD, List.getElem?_eq_getElem ht]
      exact cell_cols_lt n i j k hi hj hk _ (List.getElem_mem _)
    have hx := List.getElem?_eq_getElem hlt
    rw [hv, hc]
    simp only [Option.bind_eq_bind, Option.some_bind]
    rw [hs, List.getD_eq_getElem?_getD X, hx]
    rfl
  unfold ccsr_row
  rw [ccsr_idx_encode R n i j k hi hj hk hn, (ccsr_build_lengths R n).2.2]
  cases hb : is_boundary n i j k with
  | true =>
    rw [hb] at hterm
    simp only [if_true, Option.bind_eq_bind, Option.some_bind]
    have e1 : ([0, 1, 8] : List Nat)[0]? = some 0 := rfl
    have e2 : ([0, 1, 8] : List Nat)[0 + 1]? = some 1 := rfl
    rw [e1, e2]
    simp only [Option.some_bind]
    exact foldlM_range'_sum _ _ 0 1 (fun s t ht => by
      simpa using hterm s t (by rw [cell_cols_length]; simpa using ht))
  | false =>
    rw [hb] at hterm
    simp only [Bool.false_eq_true, if_false, Option.bind_eq_bind, Option.some_bind]
    have e1 : ([0, 1, 8] : List Nat)[1]? = some 1 := rfl
    have e2 : ([0, 1, 8] : List Nat)[1 + 1]? = some 8 := rfl
    rw [e1, e2]
    simp only [Option.some_bind]
    exact foldlM_range'_sum _ _ 1 7 (fun s t ht => by
      simpa using hterm s t (by rw [cell_cols_length]; simpa using ht))

theorem ccsr_loop_eq {R : Type} [CommRing R] (N : Nat) (idx row : List Nat) (col : List Int)
    (val X : List R) (v : Nat → R)
    (hrow : ∀ i, i < N → ccsr_row idx row col val X i = some (v i)) :
    ∀ (M : Nat) (Y : List R), Y.length = N →
      ∃ Y1, ccsr_loop N idx row col val X M Y = some Y1 ∧ Y1.length = N ∧
        ∀ i, i < N → ∀ y, Y[i]? = some y → Y1[i]? = some (y + (M : R) * v i)
  | 0, Y, hY => ⟨Y, rfl, hY, fun i _ y hy => by simp [hy]⟩
  | M + 1, Y, hY => by
    obtain ⟨Y1, h1, hlen, hlo, _⟩ :=
      foldlM_accum_range (ccsr_row idx row col val X) v N hrow N (Nat.le_refl N) Y hY
    obtain ⟨Y2, h2, hlen2, hget2⟩ := ccsr_loop_eq N idx row col val X v hrow M Y1 hlen
    refine ⟨Y2, ?_, hlen2, ?_⟩
    · unfold ccsr_loop ccsr_pass
      rw [h1]
      exact h2
    · intro i hi y hy
      rw [hget2 i hi _ (hlo i hi y hy)]
      congr 1
      push_cast
      ring

theorem ccsr_rows_eq (n : Nat) (h32 : n * n * n ≤ 2 ^ 32) : ccsr_rows n = n * n * n := by
  have hle := grid_le_of_cube_le n h32
  have h2 : n * n ≤ 1625 * 1625 := Nat.mul_le_mul hle hle
  have h3 : n * n * n ≤ 1625 * 1625 * 1625 := Nat.mul_le_mul h2 hle
  unfold ccsr_rows uint_mul
  rw [Nat.mod_eq_of_lt (show n * n < 2 ^ 32 by omega),
    Nat.mod_eq_of_lt (show n * n * n < 2 ^ 32 by omega)]

theorem loops_agree {R : Type} [CommRing R] (n : Nat) (hn : 1 ≤ n)
    (h32 : n * n * n ≤ 2 ^ 32) (X : List R) (hX : X.length = n * n * n) (M : Nat) :
    ∃ Y, ccsr_loop (n * n * n) (ccsr_build R n).idx (ccsr_build R n).row (ccsr_build R n).col
          (ccsr_build R n).val X M (List.replicate (n * n * n) 0) = some Y ∧
      spmv_loop (n * n * n) (spmv_fill R n).row (spmv_fill R n).col (spmv_fill R n).val
          X M (List.replicate (n * n * n) 0) = some Y := by
  have hs : ∀ r, r < n * n * n →
      spmv_row (spmv_fill R n).row (spmv_fill R n).col (spmv_fill R n).val X r =
        some ((spmv_row (spmv_fill R n).row (spmv_fill R n).col (spmv_fill R n).val
          X r).getD 0) := by
    intro r hr
    obtain ⟨i, j, k, hi, hj, hk, rfl⟩ := cell_encode_exists n r hr
    rw [spmv_row_eq n i j k hi hj hk X hX]
    rfl
  have hc : ∀ r, r < n * n * n →
      ccsr_row (ccsr_build R n).idx (ccsr_build R n).row (ccsr_build R n).col
          (ccsr_build R n).val X r =
        some ((spmv_row (spmv_fill R n).row (spmv_fill R n).col (spmv_fill R n).val
          X r).getD 0) := by
    intro r hr
    obtain ⟨i, j, k, hi, hj, hk, rfl⟩ := cell_encode_exists n r hr
    rw [ccsr_row_eq_spmv_row n i j k hi hj hk hn h32 X hX]
    exact hs _ hr
  obtain ⟨Y1, h1, hl1, hg1⟩ := ccsr_loop_eq (n * n * n) _ _ _ _ X _ hc M
    (List.replicate (n * n * n) (0 : R)) (by simp)
  obtain ⟨Y2, h2, hl2, hg2⟩ := spmv_loop_eq (n * n * n) _ _ _ X _ hs M
    (List.replicate (n * n * n) (0 : R)) (by simp)
  have hY : Y2 = Y1 := by
    apply List.ext_getElem?
    intro r
    by_cases hr : r < n * n * n
    · rw [hg1 r hr 0 (by simp [hr]), hg2 r hr 0 (by simp [hr])]
    · rw [List.getElem?_eq_none (by omega), List.getElem?_eq_none (by omega)]
  exact ⟨Y1, h1, hY ▸ h2⟩

/-! ### The complete `benchmark_spmv`: capacity requests, built arrays, reference multiply -/

theorem reserve_of_le (cap k x : Nat) (h : x ≤ cap) (hk : k = x) :
    reserve cap (to_size k) = some () := by
  unfold reserve to_size
  rw [if_pos (Nat.le_trans (Nat.mod_le _ _) (hk ▸ h))]

theorem spmv_build_ok (R : Type) [CommRing R] (ms : MaxSize) (n : Nat) (hn : 2 ≤ n)
    (hrow : n ^ 3 + 1 ≤ ms.row) (hcol : 6 * (n - 2) ^ 3 + n ^ 3 ≤ ms.col)
    (hval : 6 * (n - 2) ^ 3 + n ^ 3 ≤ ms.val) :
    spmv_build R ms n = some (spmv_fill R n) := by
  unfold spmv_build
  rw [reserve_of_le ms.row (n * n * n + 1) (n ^ 3 + 1) hrow (by ring),
    reserve_of_le ms.col _ _ hcol (spmv_reserve_eq n hn),
    reserve_of_le ms.val _ _ hval (spmv_reserve_eq n hn)]
  rfl

theorem spmv_build_some (R : Type) [CommRing R] (ms : MaxSize) (n : Nat) (st : CsrState R)
    (h : spmv_build R ms n = some st) : st = spmv_fill R n := by
  unfold spmv_build at h
  cases h1 : reserve ms.row (to_size (n * n * n + 1)) with
  | none => rw [h1] at h; simp at h
  | some u1 =>
    cases h2 : reserve ms.col (to_size (spmv_reserve n)) with
    | none => rw [h1, h2] at h; simp at h
    | some u2 =>
      cases h3 : reserve ms.val (to_size (spmv_reserve n)) with
      | none => rw [h1, h2, h3] at h; simp at h
      | some u3 =>
        rw [h1, h2, h3] at h
        simp only [Option.bind_eq_bind, Option.some_bind] at h
        exact (Option.some.inj h).symm

theorem spmv_reserve_one : to_size (spmv_reserve 1) = 2 ^ 64 - 5 := by decide

theorem spmv_build_one (R : Type) [CommRing R] (ms : MaxSize) (h : ms.col < 2 ^ 64 - 5) :
    spmv_build R ms 1 = none := by
  unfold spmv_build
  have h2 : reserve ms.col (to_size (spmv_reserve 1)) = none := by
    unfold reserve
    rw [spmv_reserve_one, if_neg (by omega)]
  cases reserve ms.row (to_size (1 * 1 * 1 + 1)) with
  | none => rfl
  | some u => rw [h2]; rfl

theorem spmv_host_one {R : Type} [CommRing R] (ms : MaxSize) (h : ms.col < 2 ^ 64 - 5)
    (M : Nat) (c : R) : spmv_host ms 1 M c = none := by
  unfold spmv_host
  rw [spmv_build_one R ms h]
  rfl

/-- C6 as stated fails at grid size `n = 1`: the request of `col.reserve`,
`6*(n-2)^3 + n^3` on `size_t`, wraps around to `2^64 - 5`, above every
`max_size()`; `benchmark_spmv` ends with `std::length_error` and builds no
row-pointer array, in particular none with `n^3 + 1 = 2` entries. -/
theorem spmv_build_throws_at_1 :
    1 ≤ 1 ∧ to_size (spmv_reserve 1) = 18446744073709551611 ∧
    spmv_build Int (MaxSize.mk (2 ^ 60 - 1) (2 ^ 61 - 1) (2 ^ 60 - 1)) 1 = none ∧
    (¬ ∃ st, spmv_build Int (MaxSize.mk (2 ^ 60 - 1) (2 ^ 61 - 1) (2 ^ 60 - 1)) 1 = some st ∧
      st.row.length = 1 ^ 3 + 1) ∧
    (∀ ms : MaxSize, ms.col < 2 ^ 64 - 5 → spmv_build Int ms 1 = none) := by
  have h := spmv_build_one Int (MaxSize.mk (2 ^ 60 - 1) (2 ^ 61 - 1) (2 ^ 60 - 1)) (by decide)
  refine ⟨by decide, by decide, h, ?_, fun ms hms => spmv_build_one Int ms hms⟩
  rintro ⟨st, hst, _⟩
  rw [h] at hst
  exact Option.noConfusion hst

/-- C6 (amended): for every grid size `n ≥ 2` whose capacity requests
`n^3 + 1` and `6*(n-2)^3 + n^3` are within the `max_size()` of the vectors,
`benchmark_spmv` builds its arrays, and the row-pointer array has exactly
`n^3 + 1` entries, starts with `row[0] = 0`, each step `row[r+1] - row[r]` is
`1` or `7` (so it is non-decreasing), and its last entry equals the common
length of `col` and `val`. -/
theorem spmv_row_pointer_well_formed (R : Type) [CommRing R] (ms : MaxSize) (n : Nat)
    (hn : 2 ≤ n) (hrow : n ^ 3 + 1 ≤ ms.row) (hcol : 6 * (n - 2) ^ 3 + n ^ 3 ≤ ms.col)
    (hval : 6 * (n - 2) ^ 3 + n ^ 3 ≤ ms.val) :
    ∃ st, spmv_build R ms n = some st ∧
      st.row.length = n ^ 3 + 1 ∧
      st.row[0]? = some 0 ∧
      (∀ r, r < n ^ 3 → ∃ a, st.row[r]? = some a ∧
        (st.row[r + 1]? = some (a + 1) ∨ st.row[r + 1]? = some (a + 7))) ∧
      st.row.getLast? = some st.col.length ∧
      st.col.length = st.val.length :=
  ⟨spmv_fill R n, spmv_build_ok R ms n hn hrow hcol hval, fill_row_pointer R n⟩

theorem spmv_row_pointer_well_formed_witness :
    (2 ≤ 3 ∧ 3 ^ 3 + 1 ≤ (MaxSize.mk (2 ^ 60 - 1) (2 ^ 61 - 1) (2 ^ 60 - 1)).row ∧
      6 * (3 - 2) ^ 3 + 3 ^ 3 ≤ (MaxSize.mk (2 ^ 60 - 1) (2 ^ 61 - 1) (2 ^ 60 - 1)).col ∧
      6 * (3 - 2) ^ 3 + 3 ^ 3 ≤ (MaxSize.mk (2 ^ 60 - 1) (2 ^ 61 - 1) (2 ^ 60 - 1)).val) ∧
    (∃ st, spmv_build Int (MaxSize.mk (2 ^ 60 - 1) (2 ^ 61 - 1) (2 ^ 60 - 1)) 3 = some st ∧
      st.row.length = 3 ^ 3 + 1 ∧
      st.row[0]? = some 0 ∧
      (∀ r, r < 3 ^ 3 → ∃ a, st.row[r]? = some a ∧
        (st.row[r + 1]? = some (a + 1) ∨ st.row[r + 1]? = some (a + 7))) ∧
      st.row.getLast? = some st.col.length ∧
      st.col.length = st.val.length) :=
  ⟨⟨by decide, by decide, by decide, by decide⟩,
   spmv_row_pointer_well_formed Int (MaxSize.mk (2 ^ 60 - 1) (2 ^ 61 - 1) (2 ^ 60 - 1)) 3
     (by decide) (by decide) (by decide) (by decide)⟩

/-- C5 as stated fails at grid size `n = 1`: `col.reserve` is called with
`2^64 - 5` and throws `std::length_error` before anything is built, so the
reference multiply never runs and no `Y[0] = M*c` is produced for the single
(boundary) row. -/
theorem spmv_host_throws_at_1 :
    1 ≤ 1 ∧ to_size (spmv_reserve 1) = 18446744073709551611 ∧
    spmv_host (MaxSize.mk (2 ^ 60 - 1) (2 ^ 61 - 1) (2 ^ 60 - 1)) 1 7 (5 : Int) = none ∧
    (¬ ∃ Y, spmv_host (MaxSize.mk (2 ^ 60 - 1) (2 ^ 61 - 1) (2 ^ 60 - 1)) 1 7 (5 : Int) = some Y ∧
      Y[(0 * 1 + 0) * 1 + 0]? = some (((7 : Nat) : Int) * 5)) ∧
    (∀ ms : MaxSize, ms.col < 2 ^ 64 - 5 → spmv_host ms 1 7 (5 : Int) = none) := by
  have h := spmv_host_one (MaxSize.mk (2 ^ 60 - 1) (2 ^ 61 - 1) (2 ^ 60 - 1)) (by decide) 7 (5 : Int)
  refine ⟨by decide, by decide, h, ?_, fun ms hms => spmv_host_one ms hms 7 5⟩
  rintro ⟨Y, hY, _⟩
  rw [h] at hY
  exact Option.noConfusion hY

/-- C5 (amended): for every grid size `n ≥ 2` whose capacity requests are
within the `max_size()` of the vectors, every constant `c` and every cell
`(i, j, k)` of the grid, `benchmark_spmv` builds its arrays and the host CSR
reference multiply with the constant vector `X = c` gives, in exact
arithmetic, `c` on the row of a boundary cell (`i`, `j` or `k` equal to `0` or
`n-1`) and `0` on the row of an interior cell; after `M` accumulating passes
from `Y = 0` the entry of `Y` is `M*c` on a boundary row and `0` on an interior
row. -/
theorem spmv_constant_vector {R : Type} [CommRing R] (ms : MaxSize) (n M : Nat) (c : R)
    (i j k : Nat) (hn : 2 ≤ n) (hrow : n ^ 3 + 1 ≤ ms.row) (hcol : 6 * (n - 2) ^ 3 + n ^ 3 ≤ ms.col)
    (hval : 6 * (n - 2) ^ 3 + n ^ 3 ≤ ms.val)
    (hi : i < n) (hj : j < n) (hk : k < n) :
    ∃ st, spmv_build R ms n = some st ∧
      ((i = 0 ∨ i = n - 1 ∨ j = 0 ∨ j = n - 1 ∨ k = 0 ∨ k = n - 1) →
        spmv_row st.row st.col st.val (List.replicate (n * n * n) c) ((k * n + j) * n + i)
          = some c ∧
        ∃ Y, spmv_host ms n M c = some Y ∧ Y.length = n ^ 3 ∧
          Y[(k * n + j) * n + i]? = some ((M : R) * c)) ∧
      (¬ (i = 0 ∨ i = n - 1 ∨ j = 0 ∨ j = n - 1 ∨ k = 0 ∨ k = n - 1) →
        spmv_row st.row st.col st.val (List.replicate (n * n * n) c) ((k * n + j) * n + i)
          = some 0 ∧
        ∃ Y, spmv_host ms n M c = some Y ∧ Y.length = n ^ 3 ∧
          Y[(k * n + j) * n + i]? = some 0) := by
  have hok := spmv_build_ok R ms n hn hrow hcol hval
  have hh : spmv_host ms n M c =
      spmv_loop (n * n * n) (spmv_fill R n).row (spmv_fill R n).col (spmv_fill R n).val
        (List.replicate (n * n * n) c) M (List.replicate (n * n * n) 0) := by
    unfold spmv_host
    rw [hok]
    rfl
  obtain ⟨hb, hnb⟩ := fill_constant_vector n M c i j k (by omega) hi hj hk
  refine ⟨spmv_fill R n, hok, ?_, ?_⟩
  · intro h
    obtain ⟨h1, Y, hY, h2⟩ := hb h
    exact ⟨h1, Y, hh.trans hY, h2⟩
  · intro h
    obtain ⟨h1, Y, hY, h2⟩ := hnb h
    exact ⟨h1, Y, hh.trans hY, h2⟩

theorem spmv_constant_vector_witness :
    (2 ≤ 3 ∧ 3 ^ 3 + 1 ≤ (MaxSize.mk (2 ^ 60 - 1) (2 ^ 61 - 1) (2 ^ 60 - 1)).row ∧
      6 * (3 - 2) ^ 3 + 3 ^ 3 ≤ (MaxSize.mk (2 ^ 60 - 1) (2 ^ 61 - 1) (2 ^ 60 - 1)).col ∧
      6 * (3 - 2) ^ 3 + 3 ^ 3 ≤ (MaxSize.mk (2 ^ 60 - 1) (2 ^ 61 - 1) (2 ^ 60 - 1)).val ∧
      1 < 3 ∧ 1 < 3 ∧ 1 < 3) ∧
    (∃ st, spmv_build Int (MaxSize.mk (2 ^ 60 - 1) (2 ^ 61 - 1) (2 ^ 60 - 1)) 3 = some st ∧
      ((1 = 0 ∨ 1 = 3 - 1 ∨ 1 = 0 ∨ 1 = 3 - 1 ∨ 1 = 0 ∨ 1 = 3 - 1) →
        spmv_row st.row st.col st.val (List.replicate (3 * 3 * 3) 5) ((1 * 3 + 1) * 3 + 1)
          = some 5 ∧
        ∃ Y, spmv_host (MaxSize.mk (2 ^ 60 - 1) (2 ^ 61 - 1) (2 ^ 60 - 1)) 3 4 (5 : Int) = some Y ∧ Y.length = 3 ^ 3 ∧
          Y[(1 * 3 + 1) * 3 + 1]? = some (((4 : Nat) : Int) * 5)) ∧
      (¬ (1 = 0 ∨ 1 = 3 - 1 ∨ 1 = 0 ∨ 1 = 3 - 1 ∨ 1 = 0 ∨ 1 = 3 - 1) →
        spmv_row st.row st.col st.val (List.replicate (3 * 3 * 3) 5) ((1 * 3 + 1) * 3 + 1)
          = some 0 ∧
        ∃ Y, spmv_host (MaxSize.mk (2 ^ 60 - 1) (2 ^ 61 - 1) (2 ^ 60 - 1)) 3 4 (5 : Int) = some Y ∧ Y.length = 3 ^ 3 ∧
          Y[(1 * 3 + 1) * 3 + 1]? = some 0)) :=
  ⟨⟨by decide, by decide, by decide, by decide, by decide, by decide, by decide⟩,
   spmv_constant_vector (MaxSize.mk (2 ^ 60 - 1) (2 ^ 61 - 1) (2 ^ 60 - 1)) 3 4 (5 : Int) 1 1 1
     (by decide) (by decide) (by decide) (by decide) (by decide) (by decide) (by decide)⟩

/-- C7: for every grid size `n ≥ 1` with `n^3 ≤ 2^32` and all arrays that
`benchmark_spmv` builds (it builds them for every `n ≥ 2` whose capacity
requests are within `max_size()`; at `n = 1` the `reserve` call throws and
nothing is stored or read), every column index stored lies in `[0, n^3)`; on
the row of an interior cell with counter `idx` none of the unsigned
subtractions `idx - n*n`, `idx - n`, `idx - 1` wraps around,
`idx + n*n < n^3`, no value is changed by the conversion to 32-bit `uint`, and
the stored entries are exactly `idx-n*n, idx-n, idx-1, idx, idx+1, idx+n,
idx+n*n`; on a boundary row the stored entry is `idx`; and every read
`X[col[j]]` of the host reference multiply is in bounds (each row product is
defined) for every `X` of length `n^3`. -/
theorem spmv_columns_in_range (R : Type) [CommRing R] (ms : MaxSize) (n : Nat) (hn : 1 ≤ n)
    (h32 : n ^ 3 ≤ 2 ^ 32) :
    (∀ st, spmv_build R ms n = some st →
      (∀ c ∈ st.col, c < n ^ 3) ∧
      (∀ i j k, i < n → j < n → k < n → is_boundary n i j k = false →
        (n * n ≤ (k * n + j) * n + i ∧ (k * n + j) * n + i + n * n < n ^ 3) ∧
        (size_sub ((k * n + j) * n + i) (n * n) = (k * n + j) * n + i - n * n ∧
         size_sub ((k * n + j) * n + i) n = (k * n + j) * n + i - n ∧
         size_sub ((k * n + j) * n + i) 1 = (k * n + j) * n + i - 1) ∧
        (∀ v ∈ [(k * n + j) * n + i - n * n, (k * n + j) * n + i - n, (k * n + j) * n + i - 1,
            (k * n + j) * n + i, (k * n + j) * n + i + 1, (k * n + j) * n + i + n,
            (k * n + j) * n + i + n * n], to_uint v = v) ∧
        ∃ off, st.row[(k * n + j) * n + i]? = some off ∧
          st.col[off]? = some ((k * n + j) * n + i - n * n) ∧
          st.col[off + 1]? = some ((k * n + j) * n + i - n) ∧
          st.col[off + 2]? = some ((k * n + j) * n + i - 1) ∧
          st.col[off + 3]? = some ((k * n + j) * n + i) ∧
          st.col[off + 4]? = some ((k * n + j) * n + i + 1) ∧
          st.col[off + 5]? = some ((k * n + j) * n + i + n) ∧
          st.col[off + 6]? = some ((k * n + j) * n + i + n * n)) ∧
      (∀ i j k, i < n → j < n → k < n → is_boundary n i j k = true →
        to_uint ((k * n + j) * n + i) = (k * n + j) * n + i ∧
        ∃ off, st.row[(k * n + j) * n + i]? = some off ∧
          st.col[off]? = some ((k * n + j) * n + i)) ∧
      (∀ X : List R, X.length = n ^ 3 → ∀ r, r < n ^ 3 →
        ∃ s, spmv_row st.row st.col st.val X r
          = some s)) ∧
    (2 ≤ n → n ^ 3 + 1 ≤ ms.row → 6 * (n - 2) ^ 3 + n ^ 3 ≤ ms.col →
      6 * (n - 2) ^ 3 + n ^ 3 ≤ ms.val → ∃ st, spmv_build R ms n = some st) := by
  constructor
  · intro st hst
    rw [spmv_build_some R ms n st hst]
    exact fill_columns_in_range R n hn h32
  · intro h2 hrow hcol hval
    exact ⟨_, spmv_build_ok R ms n h2 hrow hcol hval⟩

theorem spmv_columns_in_range_witness :
    (1 ≤ 3 ∧ 3 ^ 3 ≤ 2 ^ 32) ∧
    ((∀ st, spmv_build Int (MaxSize.mk (2 ^ 60 - 1) (2 ^ 61 - 1) (2 ^ 60 - 1)) 3 = some st →
      (∀ c ∈ st.col, c < 3 ^ 3) ∧
      (∀ i j k, i < 3 → j < 3 → k < 3 → is_boundary 3 i j k = false →
        (3 * 3 ≤ (k * 3 + j) * 3 + i ∧ (k * 3 + j) * 3 + i + 3 * 3 < 3 ^ 3) ∧
        (size_sub ((k * 3 + j) * 3 + i) (3 * 3) = (k * 3 + j) * 3 + i - 3 * 3 ∧
         size_sub ((k * 3 + j) * 3 + i) 3 = (k * 3 + j) * 3 + i - 3 ∧
         size_sub ((k * 3 + j) * 3 + i) 1 = (k * 3 + j) * 3 + i - 1) ∧
        (∀ v ∈ [(k * 3 + j) * 3 + i - 3 * 3, (k * 3 + j) * 3 + i - 3, (k * 3 + j) * 3 + i - 1,
            (k * 3 + j) * 3 + i, (k * 3 + j) * 3 + i + 1, (k * 3 + j) * 3 + i + 3,
            (k * 3 + j) * 3 + i + 3 * 3], to_uint v = v) ∧
        ∃ off, st.row[(k * 3 + j) * 3 + i]? = some off ∧
          st.col[off]? = some ((k * 3 + j) * 3 + i - 3 * 3) ∧
          st.col[off + 1]? = some ((k * 3 + j) * 3 + i - 3) ∧
          st.col[off + 2]? = some ((k * 3 + j) * 3 + i - 1) ∧
          st.col[off + 3]? = some ((k * 3 + j) * 3 + i) ∧
          st.col[off + 4]? = some ((k * 3 + j) * 3 + i + 1) ∧
          st.col[off + 5]? = some ((k * 3 + j) * 3 + i + 3) ∧
          st.col[off + 6]? = some ((k * 3 + j) * 3 + i + 3 * 3)) ∧
      (∀ i j k, i < 3 → j < 3 → k < 3 → is_boundary 3 i j k = true →
        to_uint ((k * 3 + j) * 3 + i) = (k * 3 + j) * 3 + i ∧
        ∃ off, st.row[(k * 3 + j) * 3 + i]? = some off ∧
          st.col[off]? = some ((k * 3 + j) * 3 + i)) ∧
      (∀ X : List Int, X.length = 3 ^ 3 → ∀ r, r < 3 ^ 3 →
        ∃ s, spmv_row st.row st.col st.val X r
          = some s)) ∧
    (2 ≤ 3 → 3 ^ 3 + 1 ≤ (MaxSize.mk (2 ^ 60 - 1) (2 ^ 61 - 1) (2 ^ 60 - 1)).row →
      6 * (3 - 2) ^ 3 + 3 ^ 3 ≤ (MaxSize.mk (2 ^ 60 - 1) (2 ^ 61 - 1) (2 ^ 60 - 1)).col →
      6 * (3 - 2) ^ 3 + 3 ^ 3 ≤ (MaxSize.mk (2 ^ 60 - 1) (2 ^ 61 - 1) (2 ^ 60 - 1)).val →
      ∃ st, spmv_build Int (MaxSize.mk (2 ^ 60 - 1) (2 ^ 61 - 1) (2 ^ 60 - 1)) 3 = some st)) ∧
    (∃ st, spmv_build Int (MaxSize.mk (2 ^ 60 - 1) (2 ^ 61 - 1) (2 ^ 60 - 1)) 3 = some st) :=
  ⟨⟨by decide, by decide⟩,
   spmv_columns_in_range Int (MaxSize.mk (2 ^ 60 - 1) (2 ^ 61 - 1) (2 ^ 60 - 1)) 3 (by decide) (by decide),
   (spmv_columns_in_range Int (MaxSize.mk (2 ^ 60 - 1) (2 ^ 61 - 1) (2 ^ 60 - 1)) 3 (by decide) (by decide)).2
     (by decide) (by decide) (by decide) (by decide)⟩

theorem fill_ccsr_differ_1626 :
    1 ≤ 1626 ∧ 4295280625 < 1626 ^ 3 ∧
    (∃ es, csr_row_entries (spmv_fill Int 1626).row (spmv_fill Int 1626).col
        (spmv_fill Int 1626).val 4295280625 = some es ∧
      (es[3]?).map Prod.fst = some 313329) ∧
    (∃ es, ccsr_row_entries (ccsr_build Int 1626).idx (ccsr_build Int 1626).row
        (ccsr_build Int 1626).col (ccsr_build Int 1626).val 4295280625 = some es ∧
      (es[3]?).map Prod.fst = some 4295280625) ∧
    csr_row_entries (spmv_fill Int 1626).row (spmv_fill Int 1626).col
        (spmv_fill Int 1626).val 4295280625 ≠
      ccsr_row_entries (ccsr_build Int 1626).idx (ccsr_build Int 1626).row
        (ccsr_build Int 1626).col (ccsr_build Int 1626).val 4295280625 := by
  have hc := csr_row_entries_eq (R := Int) 1626 1 1000 1624 (by decide) (by decide) (by decide)
  have e : (1624 * 1626 + 1000) * 1626 + 1 = 4295280625 := by decide
  have hb : is_boundary 1626 1 1000 1624 = false := by decide
  rw [e, hb] at hc
  have hcc := ccsr_row_entries_eq (R := Int) 1626 4295280625 (by decide)
  have hb1 : ccsr_cell_boundary 1626 4295280625 = false := by decide
  rw [hb1] at hcc
  simp only [Bool.false_eq_true, if_false] at hcc
  have hl : (cell_cols 1626 4295280625 false).length = 7 := rfl
  rw [hl] at hc
  have h3 : (3 : Nat) < 7 := by decide
  have hx : (cell_cols 1626 4295280625 false).getD 3 0 = 313329 := by decide
  have hy : size_add_int 4295280625 ((ccsr_build Int 1626).col.getD (1 + 3) 0) = 4295280625 := by
    decide
  have hcsr : ∀ es, csr_row_entries (spmv_fill Int 1626).row (spmv_fill Int 1626).col
        (spmv_fill Int 1626).val 4295280625 = some es →
      (es[3]?).map Prod.fst = some 313329 := by
    intro es hes
    rw [hc] at hes
    rw [← Option.some.inj hes, List.getElem?_map, List.getElem?_range h3]
    simp only [Option.map_some']
    rw [hx]
  have hccsr : ∀ es, ccsr_row_entries (ccsr_build Int 1626).idx (ccsr_build Int 1626).row
        (ccsr_build Int 1626).col (ccsr_build Int 1626).val 4295280625 = some es →
      (es[3]?).map Prod.fst = some 4295280625 := by
    intro es hes
    rw [hcc] at hes
    rw [← Option.some.inj hes, List.getElem?_map, List.getElem?_range h3]
    simp only [Option.map_some']
    rw [hy]
  refine ⟨by decide, by decide, ⟨_, hc, hcsr _ hc⟩, ⟨_, hcc, hccsr _ hcc⟩, ?_⟩
  intro hne
  have h1 := hcsr _ hc
  have h2 := hccsr _ (hne ▸ hc)
  rw [h1] at h2
  exact absurd (Option.some.inj h2) (by decide)

/-- C12 as stated fails at both ends of its range.  At grid size `n = 1626`
(where `n^3 > 2^32`), on the interior row `i = 4295280625 < n^3` the CSR
builder of `benchmark_spmv` stores the diagonal column index truncated to 32
bits (`313329`), while the CCSR form of `benchmark_spmv_ccsr` addresses column
`i + 0 = 4295280625`; the two entry sequences differ.  At `n = 1` the
`reserve` call of `benchmark_spmv` throws, so there are no CSR arrays and no
`Y`, while the CCSR reference multiply returns `Y = [M*c]`. -/
theorem csr_ccsr_differ_at_1626 :
    (1 ≤ 1626 ∧ 4295280625 < 1626 ^ 3 ∧
      ∃ st, spmv_build Int (MaxSize.mk (2 ^ 60 - 1) (2 ^ 61 - 1) (2 ^ 60 - 1)) 1626 = some st ∧
        (∃ es, csr_row_entries st.row st.col st.val 4295280625 = some es ∧
          (es[3]?).map Prod.fst = some 313329) ∧
        (∃ es, ccsr_row_entries (ccsr_build Int 1626).idx (ccsr_build Int 1626).row
            (ccsr_build Int 1626).col (ccsr_build Int 1626).val 4295280625 = some es ∧
          (es[3]?).map Prod.fst = some 4295280625) ∧
        csr_row_entries st.row st.col st.val 4295280625 ≠
          ccsr_row_entries (ccsr_build Int 1626).idx (ccsr_build Int 1626).row
            (ccsr_build Int 1626).col (ccsr_build Int 1626).val 4295280625) ∧
    (1 ≤ 1 ∧ spmv_build Int (MaxSize.mk (2 ^ 60 - 1) (2 ^ 61 - 1) (2 ^ 60 - 1)) 1 = none ∧
      spmv_host (MaxSize.mk (2 ^ 60 - 1) (2 ^ 61 - 1) (2 ^ 60 - 1)) 1 7 (5 : Int) = none ∧
      ccsr_host 1 7 (5 : Int) = some [35]) := by
  obtain ⟨h1, h2, h3, h4, h5⟩ := fill_ccsr_differ_1626
  exact ⟨⟨h1, h2, spmv_fill Int 1626,
      spmv_build_ok Int (MaxSize.mk (2 ^ 60 - 1) (2 ^ 61 - 1) (2 ^ 60 - 1)) 1626
        (by decide) (by decide) (by decide) (by decide), h3, h4, h5⟩,
    by decide, spmv_build_one Int _ (by decide), spmv_host_one _ (by decide) 7 5, by decide⟩

/-- C12 (amended): for every grid size `n ≥ 2` with `n^3 ≤ 2^32` (the range in
which the 32-bit `col` array of the CSR form holds every column index
unchanged) whose capacity requests are within the `max_size()` of the vectors,
`benchmark_spmv` builds its CSR arrays and they represent the same matrix as
the CCSR arrays of `benchmark_spmv_ccsr`: for every row `i < n^3` the sequence
of `(i + col[j], val[j])`, `j` in `[row[idx[i]], row[idx[i]+1])`, of the CCSR
form equals entry by entry and in the same order the sequence of
`(col[j], val[j])`, `j` in `[row[i], row[i+1])`, of the CSR form, and every
`i + col[j]` is below `n^3`; hence for every `X` of length `n^3` and every
number of passes `M` the two host reference multiplies produce the same `Y`
(also in the benchmark's own setting, `X` the constant vector `c`). -/
theorem ccsr_csr_same_matrix (R : Type) [CommRing R] (ms : MaxSize) (n : Nat) (hn : 2 ≤ n)
    (h32 : n ^ 3 ≤ 2 ^ 32) (hrow : n ^ 3 + 1 ≤ ms.row) (hcol : 6 * (n - 2) ^ 3 + n ^ 3 ≤ ms.col)
    (hval : 6 * (n - 2) ^ 3 + n ^ 3 ≤ ms.val)
    (i : Nat) (hi : i < n ^ 3) (X : List R) (hX : X.length = n ^ 3) (M : Nat) (c : R) :
    ∃ st, spmv_build R ms n = some st ∧
      (∃ es, ccsr_row_entries (ccsr_build R n).idx (ccsr_build R n).row (ccsr_build R n).col
            (ccsr_build R n).val i = some es ∧
          csr_row_entries st.row st.col st.val i = some es ∧
          ∀ e ∈ es, e.1 < n ^ 3) ∧
      (∃ Y, ccsr_loop (ccsr_rows n) (ccsr_build R n).idx (ccsr_build R n).row
            (ccsr_build R n).col (ccsr_build R n).val X M (List.replicate (ccsr_rows n) 0)
          = some Y ∧
        spmv_loop (n * n * n) st.row st.col st.val X M (List.replicate (n * n * n) 0)
          = some Y) ∧
      (∃ Y, ccsr_host n M c = some Y ∧ spmv_host ms n M c = some Y) := by
  have hok := spmv_build_ok R ms n hn hrow hcol hval
  have hn1 : 1 ≤ n := by omega
  have e : n ^ 3 = n * n * n := by ring
  rw [e] at h32 hi hX ⊢
  refine ⟨spmv_fill R n, hok, ?_, ?_, ?_⟩
  · obtain ⟨i1, j1, k1, hi1, hj1, hk1, rfl⟩ := cell_encode_exists n i hi
    exact row_entries_agree n i1 j1 k1 hi1 hj1 hk1 hn1 h32
  · rw [ccsr_rows_eq n h32]
    exact loops_agree n hn1 h32 X hX M
  · unfold ccsr_host spmv_host
    rw [hok]
    simp only [Option.bind_eq_bind, Option.some_bind]
    rw [ccsr_rows_eq n h32]
    exact loops_agree n hn1 h32 (List.replicate (n * n * n) c) (by simp) M

theorem ccsr_csr_same_matrix_witness :
    (2 ≤ 3 ∧ 3 ^ 3 ≤ 2 ^ 32 ∧ 3 ^ 3 + 1 ≤ (MaxSize.mk (2 ^ 60 - 1) (2 ^ 61 - 1) (2 ^ 60 - 1)).row ∧
      6 * (3 - 2) ^ 3 + 3 ^ 3 ≤ (MaxSize.mk (2 ^ 60 - 1) (2 ^ 61 - 1) (2 ^ 60 - 1)).col ∧
      6 * (3 - 2) ^ 3 + 3 ^ 3 ≤ (MaxSize.mk (2 ^ 60 - 1) (2 ^ 61 - 1) (2 ^ 60 - 1)).val ∧
      13 < 3 ^ 3 ∧ ((List.range 27).map (fun x : Nat => (x : Int) * x)).length = 3 ^ 3) ∧
    (∃ st, spmv_build Int (MaxSize.mk (2 ^ 60 - 1) (2 ^ 61 - 1) (2 ^ 60 - 1)) 3 = some st ∧
      (∃ es, ccsr_row_entries (ccsr_build Int 3).idx (ccsr_build Int 3).row (ccsr_build Int 3).col
            (ccsr_build Int 3).val 13 = some es ∧
          csr_row_entries st.row st.col st.val 13 = some es ∧
          ∀ e ∈ es, e.1 < 3 ^ 3) ∧
      (∃ Y, ccsr_loop (ccsr_rows 3) (ccsr_build Int 3).idx (ccsr_build Int 3).row
            (ccsr_build Int 3).col (ccsr_build Int 3).val ((List.range 27).map (fun x : Nat => (x : Int) * x)) 2
            (List.replicate (ccsr_rows 3) 0)
          = some Y ∧
        spmv_loop (3 * 3 * 3) st.row st.col st.val ((List.range 27).map (fun x : Nat => (x : Int) * x)) 2
            (List.replicate (3 * 3 * 3) 0)
          = some Y) ∧
      (∃ Y, ccsr_host 3 2 (5 : Int) = some Y ∧ spmv_host (MaxSize.mk (2 ^ 60 - 1) (2 ^ 61 - 1) (2 ^ 60 - 1)) 3 2 (5 : Int) = some Y)) :=
  ⟨⟨by decide, by decide, by decide, by decide, by decide, by decide, by simp⟩,
   ccsr_csr_same_matrix Int (MaxSize.mk (2 ^ 60 - 1) (2 ^ 61 - 1) (2 ^ 60 - 1)) 3 (by decide) (by decide)
     (by decide) (by decide) (by decide) 13 (by decide) ((List.range 27).map (fun x : Nat => (x : Int) * x)) (by simp) 2 5⟩

end VexCL
